import Mathlib

/-!
Verification of the gaitutils event-detection core against its
natural-language specification.

The Lean definitions below are a shallow embedding of the Python sources
(`gaitutils/utils.py`, `gaitutils/emg.py`, `gaitutils/analysis.py`).
Numeric data is modelled by exact rationals; marker geometry, which the
source computes with Euclidean norms, is modelled over the reals with
`Real.sqrt`.  Helper routines of the repository that are not shipped in
the sources under inspection (`numutils.rising_zerocross`,
`numutils.falling_zerocross`, `numutils._baseline`) are modelled from the
specification text, as noted at each definition.
-/

namespace Gaitutils

/-- 3-vector of rationals (one marker sample, units mm, as in the source). -/
abbrev Vec3Q := ℚ × ℚ × ℚ

/-- 3-vector of reals, used where the source takes Euclidean norms. -/
abbrev Vec3R := ℝ × ℝ × ℝ

/-- Cast a rational sample vector to the reals. -/
def castVec (v : Vec3Q) : Vec3R := ((v.1 : ℝ), (v.2.1 : ℝ), (v.2.2 : ℝ))

/-- Componentwise addition of rational vectors (numpy elementwise `+`). -/
def vaddQ (a b : Vec3Q) : Vec3Q := (a.1 + b.1, a.2.1 + b.2.1, a.2.2 + b.2.2)

/-- Maximum of a nonempty list given explicitly by head and tail
(Python `max` over a nonempty sequence). -/
def listMax (h : ℚ) (t : List ℚ) : ℚ := t.foldl max h

/-- Minimum of a nonempty list given explicitly by head and tail
(Python `min` over a nonempty sequence). -/
def listMin (h : ℚ) (t : List ℚ) : ℚ := t.foldl min h

/-- Median of three values, as computed by a width-3 median filter window. -/
def med3 (a b c : ℚ) : ℚ := max (min a b) (min (max a b) c)

/-- Recursion for the width-3 median filter: `prev` is the sample left of
the current one (initially the zero padding); the right neighbour of the
final sample is again the zero padding. -/
def medfilt3Go (prev : ℚ) : List ℚ → List ℚ
  | [] => []
  | [x] => [med3 prev x 0]
  | x :: y :: rest => med3 prev x y :: medfilt3Go x (y :: rest)

/-- `scipy.signal.medfilt(x)` with its default kernel size 3: each output
sample is the median of the sample and its two neighbours, with zero
padding at both ends. -/
def medfilt3 (l : List ℚ) : List ℚ := medfilt3Go 0 l

/-- Modelled from the spec: `numutils._baseline` is not among the sources;
§4.1 specifies "subtracts an estimate of the resting (near-zero-force)
level", the estimator being a robust low percentile chosen by the
implementer.  We take the lowest signal level (the 0th percentile),
which is insensitive to the high-force region as required. -/
def baselineSub (l : List ℚ) : List ℚ :=
  match l with
  | [] => []
  | h :: t => (h :: t).map (· - listMin h t)

/-- Recursion for the rising zero crossings: scan adjacent pairs, keeping
track of the index of the first element of the pair. -/
def risingZCGo (i : ℕ) : List ℚ → List ℕ
  | a :: b :: rest =>
    if a ≤ 0 ∧ 0 < b then i :: risingZCGo (i + 1) (b :: rest)
    else risingZCGo (i + 1) (b :: rest)
  | _ => []

/-- Modelled from the spec: `numutils.rising_zerocross` is not among the
sources; §4.1 specifies "indices i where signal[i] ≤ 0 and
signal[i+1] > 0", sorted ascending. -/
def risingZC (s : List ℚ) : List ℕ := risingZCGo 0 s

/-- Recursion for the falling zero crossings, mirroring the rising case. -/
def fallingZCGo (i : ℕ) : List ℚ → List ℕ
  | a :: b :: rest =>
    if 0 ≤ a ∧ b < 0 then i :: fallingZCGo (i + 1) (b :: rest)
    else fallingZCGo (i + 1) (b :: rest)
  | _ => []

/-- Modelled from the spec: `numutils.falling_zerocross` is the mirror of
the rising case, "(≥0 → <0)". -/
def fallingZC (s : List ℚ) : List ℕ := fallingZCGo 0 s

/-- `int(np.round x)` for a rational `x`: round half to even (numpy
rounding), which is integral already, so the `int` cast is the identity. -/
def nroundQ (q : ℚ) : ℤ :=
  if q - ⌊q⌋ < 1/2 then ⌊q⌋
  else if 1/2 < q - ⌊q⌋ then ⌊q⌋ + 1
  else if ⌊q⌋ % 2 = 0 then ⌊q⌋ else ⌊q⌋ + 1

/-- Population variance (`np.var` with its default ddof=0) of a list of
rationals; `np.var` of an empty array is NaN, modelled as 0 (no theorem
below touches the empty case). -/
def varQ (l : List ℚ) : ℚ :=
  ((l.map fun x => x * x).sum) / l.length - (l.sum / l.length) ^ 2

/-- First index of the maximum among three values (`np.argmax` over the
three per-axis variances; `np.argmax` returns the first maximal index). -/
def argmax3 (a b c : ℚ) : Fin 3 :=
  if a ≥ b ∧ a ≥ c then 0 else if b ≥ c then 1 else 2

/-- Elementwise sum of equally long trajectories (Python `sum` of numpy
arrays, which broadcasts the scalar start value 0). -/
def sumTrajs : List (List Vec3Q) → List Vec3Q
  | [] => []
  | l :: ls => ls.foldl (fun acc m => List.zipWith vaddQ acc m) l

/-- Coordinate of a rational vector along a numpy axis index. -/
def coordQ (v : Vec3Q) : Fin 3 → ℚ
  | 0 => v.1
  | 1 => v.2.1
  | 2 => v.2.2

section ButterFilt

/-- The concrete filter design handed to `scipy.signal.butter` by
`butter_filt`; the scipy design and the forward-backward application
(`signal.filtfilt`) are external library calls, so the embedding records
which design is requested, with the normalized critical frequencies. -/
inductive FilterDesign
  | identity
  | lowpass (wn : ℚ)
  | highpass (wn : ℚ)
  | bandpass (lo hi : ℚ)
deriving DecidableEq

/-- `utils.butter_filt(data, passband, sfreq, bord=5)`: passband `None`
returns the data unfiltered; a passband of length ≠ 2 raises
`ValueError`; otherwise the passband is normalized to `2 * passband /
sfreq` and one of the three Butterworth designs is requested.  Note the
source's highpass branch hands `passbandn[1]` (the entry that was just
tested to be zero) to `signal.butter` as the critical frequency. -/
def butter_filt (passband : Option (List ℚ)) (sfreq : ℚ) :
    Except String FilterDesign :=
  match passband with
  | none => .ok .identity
  | some pb =>
    if pb.length ≠ 2 then .error "Passband must be a vector of length 2"
    else
      let lo := 2 * pb.getD 0 0 / sfreq
      let hi := 2 * pb.getD 1 0 / sfreq
      if lo = 0 then .ok (.lowpass hi)
      else if hi = 0 then .ok (.highpass hi)
      else .ok (.bandpass lo hi)

end ButterFilt

section EmgMatch

/-- Errors raised by `EMG._match_name`: a `ValueError` for names shorter
than two characters, and a `KeyError` when no channel matches. -/
inductive MatchErr
  | invalidName
  | noMatch
deriving DecidableEq

/-- The substring hits of the requested name among the available channel
names (`[x for x in self.data if x.find(chname) >= 0]`), in order. -/
def chMatches (avail : List (List Char)) (ch : List Char) : List (List Char) :=
  avail.filter fun x => ch <:+: x

/-- Python `min(matches, key=len)`: leftmost element of minimal length. -/
def minByLen (h : List Char) (t : List (List Char)) : List Char :=
  t.foldl (fun acc x => if x.length < acc.length then x else acc) h

/-- `EMG._match_name(chname)`: reject names shorter than two characters,
collect the substring matches, fail with `KeyError` when there is none,
and otherwise return the shortest match (a warning, not an error, is
logged when several names match). -/
def matchName (avail : List (List Char)) (ch : List Char) :
    Except MatchErr (List Char) :=
  if ¬ 2 ≤ ch.length then .error .invalidName
  else
    match chMatches avail ch with
    | [] => .error .noMatch
    | m :: ms => .ok (minByLen m ms)

/-- Whether `_match_name` logs its multiple-match warning. -/
def matchWarns (avail : List (List Char)) (ch : List Char) : Bool :=
  1 < (chMatches avail ch).length

end EmgMatch

section Forceplate

/-- Gait context: right or left side. -/
inductive Side
  | R
  | L
deriving DecidableEq

/-- Marker-name prefix of a side, as used to key the marker dictionary. -/
def Side.str : Side → String
  | .R => "R"
  | .L => "L"

/-- The configuration fields of `cfg.autoproc` read by the detector and
the foot-geometry estimate, passed explicitly. -/
structure AutoprocCfg where
  forceplate_contact_threshold : ℚ
  forceplate_min_weight : ℚ
  cop_shift_max : ℚ
  foot_relative_len : ℚ
  marker_diam : ℚ
  right_foot_markers : List String
  left_foot_markers : List String

/-- The metadata fields of `read_data.get_metadata` used by the detector
(§6 of the spec); `frame_count` is carried for stating frame bounds. -/
structure Metadata where
  bodymass : Option ℚ
  samplesperframe : ℕ
  framerate : ℕ
  frame_count : ℕ

/-- One forceplate record: total-force samples, center-of-pressure rows at
analog rate, and the plate's bounds in world coordinates. -/
structure FPData where
  Ftot : List ℚ
  CoP : List Vec3Q
  lowerbounds : Vec3Q
  upperbounds : Vec3Q

/-- Marker data: mapping from marker name to its position trajectory. -/
abbrev MkrData := String → List Vec3Q

/-- Exceptions escaping `detect_forceplate_events`:
`GaitDataError('got valid contact for both feet')`, the
`Exception('unexpected Eclipse forceplate field')`, and the `ValueError`
Python `max` raises on an empty force array. -/
inductive DetectErr
  | ambiguousContact
  | unexpectedEclipse
  | emptyForceData
deriving DecidableEq

/-- The per-side event lists and validity set returned by the detector. -/
structure FPResults where
  R_strikes : List ℤ
  R_toeoffs : List ℤ
  L_strikes : List ℤ
  L_toeoffs : List ℤ
  valid : Finset Side
deriving DecidableEq

/-- The empty result dictionary the detector starts from. -/
def emptyResults : FPResults := ⟨[], [], [], [], ∅⟩

/-- Outcome of the Eclipse-info branch for one plate: autodetect, skip the
plate, or a side taken as ground truth. -/
inductive EclMode
  | auto
  | skip
  | known (s : Side)
deriving DecidableEq

/-- Whether the plate is in autodetection mode. -/
def EclMode.isAuto : EclMode → Bool
  | .auto => true
  | _ => false

/-- The Eclipse-info check at the top of the plate loop: no `fp_info`, a
missing key `FP<i>`, or the value `Auto` mean autodetection; `Right`,
`Left` assign the side; `Invalid` skips the plate; any other value raises. -/
def eclMode (fp_info : Option (List (String × String))) (plate_ind : ℕ) :
    Except DetectErr EclMode :=
  match fp_info with
  | none => .ok .auto
  | some di =>
    match List.lookup ("FP" ++ toString plate_ind) di with
    | none => .ok .auto
    | some v =>
      if v = "Right" then .ok (.known .R)
      else if v = "Left" then .ok (.known .L)
      else if v = "Invalid" then .ok .skip
      else if v = "Auto" then .ok .auto
      else .error .unexpectedEclipse

/-- Median-filter and baseline the raw total-force samples of a plate. -/
def baselineFtot (fp : FPData) : List ℚ := baselineSub (medfilt3 fp.Ftot)

/-- The force threshold and the minimum-weight rejection flag (lines
260-273 of `utils.py`): with unknown body mass the threshold falls back to
`forceplate_contact_threshold * fmax` and no weight check is made; with
known mass the threshold is `forceplate_contact_threshold * mass * 9.81`
and, in autodetection mode only, the plate is rejected when
`fmax < forceplate_min_weight * mass * 9.81`. -/
def thresholdAndReject (cfg : AutoprocCfg) (detect : Bool)
    (bodymass : Option ℚ) (fmax : ℚ) : ℚ × Bool :=
  match bodymass with
  | none => (cfg.forceplate_contact_threshold * fmax, false)
  | some m =>
    (cfg.forceplate_contact_threshold * m * (981/100),
     detect && decide (fmax < cfg.forceplate_min_weight * m * (981/100)))

/-- First rising and last falling crossing of the thresholded force; the
`IndexError` on a missing crossing is caught and rejects the plate. -/
def riseFallInds (s : List ℚ) : Option (ℕ × ℕ) :=
  match (risingZC s).head?, (fallingZC s).getLast? with
  | some a, some b => some (a, b)
  | _, _ => none

/-- `fp['CoP'][friseind:ffallind, fwd_dir]`: the center-of-pressure
coordinates along the walking direction inside the contact interval. -/
def copRoi (cop : List Vec3Q) (fwd : Fin 3) (a b : ℕ) : List ℚ :=
  ((cop.drop a).take (b - a)).map fun v => coordQ v fwd

/-- Walking direction: axis of maximal variance of the summed foot-marker
trajectories. -/
def fwdDir (cfg : AutoprocCfg) (mkr : MkrData) : Fin 3 :=
  let pos := sumTrajs ((cfg.right_foot_markers ++ cfg.left_foot_markers).map mkr)
  argmax3 (varQ (pos.map fun v => coordQ v 0)) (varQ (pos.map fun v => coordQ v 1))
    (varQ (pos.map fun v => coordQ v 2))

end Forceplate

noncomputable section FootGeometry

open scoped Classical

/-- Componentwise addition of real vectors. -/
def vadd (a b : Vec3R) : Vec3R := (a.1 + b.1, a.2.1 + b.2.1, a.2.2 + b.2.2)

/-- Componentwise subtraction of real vectors. -/
def vsub (a b : Vec3R) : Vec3R := (a.1 - b.1, a.2.1 - b.2.1, a.2.2 - b.2.2)

/-- Scalar multiple of a real vector. -/
def smul (c : ℝ) (v : Vec3R) : Vec3R := (c * v.1, c * v.2.1, c * v.2.2)

/-- Euclidean inner product of real vectors. -/
def dot3 (a b : Vec3R) : ℝ := a.1 * b.1 + a.2.1 * b.2.1 + a.2.2 * b.2.2

/-- Euclidean norm (`np.linalg.norm` along the coordinate axis). -/
def norm3 (v : Vec3R) : ℝ := Real.sqrt (dot3 v v)

/-- Componentwise minimum (`np.minimum`). -/
def vmin (a b : Vec3R) : Vec3R := (min a.1 b.1, min a.2.1 b.2.1, min a.2.2 b.2.2)

/-- Componentwise maximum (`np.maximum`). -/
def vmax (a b : Vec3R) : Vec3R := (max a.1 b.1, max a.2.1 b.2.1, max a.2.2 b.2.2)

/-- `utils._normalize` on one row: the vector divided by its norm.  The
source quietly yields NaN on zero-norm rows; in this embedding division
by a zero norm yields the zero vector instead, and every theorem touching
directions assumes a nonzero row. -/
def normalizeV (v : Vec3R) : Vec3R := (v.1 / norm3 v, v.2.1 / norm3 v, v.2.2 / norm3 v)

/-- `np.median`: mean of the two middle elements of the sorted data for
even length, middle element for odd length (0 for the empty array, whose
numpy median is NaN; no theorem below touches that case). -/
def medianR (l : List ℝ) : ℝ :=
  let s := l.insertionSort (· ≤ ·)
  if l.length % 2 = 1 then s.getD (l.length / 2) 0
  else (s.getD (l.length / 2 - 1) 0 + s.getD (l.length / 2) 0) / 2

/-- Heel-to-ankle distances over all frames, whose median scales the
estimated foot length. -/
def haLens (hee ank : List Vec3R) : List ℝ := (List.zipWith vsub ank hee).map norm3

/-- Estimated end point of the foot: the heel marker moved along the
normalized heel-to-toe direction by the median heel-ankle distance times
`foot_relative_len`. -/
def footEnd (relLen : ℚ) (m : ℝ) (hee htVn : Vec3R) : Vec3R :=
  vadd hee (smul (m * (relLen : ℝ)) htVn)

/-- Lateral ankle vector: the component of the heel-to-ankle vector
perpendicular to the heel-to-toe line. -/
def lankV (haV htVn : Vec3R) : Vec3R := vsub haV (smul (dot3 haV htVn) htVn)

/-- Heel edge of the estimated footprint: the heel marker moved along the
heel-to-toe direction by half the marker diameter. -/
def heelEdge (diam : ℚ) (hee htVn : Vec3R) : Vec3R :=
  vadd hee (smul ((diam : ℝ) / 2) htVn)

/-- One frame of `utils._get_foot_points`: the componentwise bounding box
of the heel edge and the two lateral edge points about the foot end. -/
def footFrame (relLen diam : ℚ) (m : ℝ) (hee toe ank : Vec3R) : Vec3R × Vec3R :=
  let htVn := normalizeV (vsub toe hee)
  let haV := vsub ank hee
  let fend := footEnd relLen m hee htVn
  let lv := lankV haV htVn
  let lat := vadd fend lv
  let med := vsub fend lv
  let he := heelEdge diam hee htVn
  (vmin (vmin he lat) med, vmax (vmax he lat) med)

/-- `utils._get_foot_points(mkrdata, context)`: per-frame bounding boxes of
the estimated foot, all frames sharing the median heel-ankle distance. -/
def footPoints (cfg : AutoprocCfg) (mkr : MkrData) (side : Side) :
    List (Vec3R × Vec3R) :=
  let hee := (mkr (side.str ++ "HEE")).map castVec
  let toe := (mkr (side.str ++ "TOE")).map castVec
  let ank := (mkr (side.str ++ "ANK")).map castVec
  let m := medianR (haLens hee ank)
  List.zipWith3 (footFrame cfg.foot_relative_len cfg.marker_diam m) hee toe ank

/-- The on-plate check for one foot box at the settled frame: both corners
strictly inside the plate bounds on both ground axes (lines 323-331). -/
def footOn (mins maxes : Vec3Q) (p : Vec3R × Vec3R) : Prop :=
  ((mins.1 : ℝ) < p.1.1 ∧ p.1.1 < (maxes.1 : ℝ)) ∧
  ((mins.1 : ℝ) < p.2.1 ∧ p.2.1 < (maxes.1 : ℝ)) ∧
  ((mins.2.1 : ℝ) < p.1.2.1 ∧ p.1.2.1 < (maxes.2.1 : ℝ)) ∧
  ((mins.2.1 : ℝ) < p.2.2.1 ∧ p.2.2.1 < (maxes.2.1 : ℝ))

/-- Placeholder box used for out-of-range settled frames; numpy indexing
would raise there, and no theorem below depends on this value. -/
def dfltBox : Vec3R × Vec3R := ((0, 0, 0), (0, 0, 0))

/-- The `if detect:` block of the plate loop (lines 290-340): the
center-of-pressure excursion check over the contact interval, followed by
the per-side on-plate checks of the estimated footprints at the settled
frame, the right side first; both sides passing raises the
`GaitDataError`. -/
def autoValid (cfg : AutoprocCfg) (info : Metadata) (mkr : MkrData) (fwd : Fin 3)
    (fp : FPData) (fri ffa : ℕ) (strike : ℤ) : Except DetectErr (Option Side) :=
  match copRoi fp.CoP fwd fri ffa with
  | [] => .ok none
  | r :: rs =>
    if |listMax r rs - listMin r rs| > cfg.cop_shift_max then .ok none
    else
      let fr0 := (strike + (info.framerate / 20 : ℕ)).toNat
      let pR := (footPoints cfg mkr .R).getD fr0 dfltBox
      let pL := (footPoints cfg mkr .L).getD fr0 dfltBox
      if footOn fp.lowerbounds fp.upperbounds pR then
        if footOn fp.lowerbounds fp.upperbounds pL then .error .ambiguousContact
        else .ok (some .R)
      else if footOn fp.lowerbounds fp.upperbounds pL then .ok (some .L)
      else .ok none

/-- The body of the plate loop of `detect_forceplate_events` for one
plate: Eclipse-info branch, force preprocessing, threshold and weight
check, threshold crossings, frame conversion, and (in autodetection mode)
the center-of-pressure and foot-position checks.  Returns the accepted
side with its strike and toe-off frames, `none` when the plate yields no
valid contact, or the raised exception. -/
def plateEval (cfg : AutoprocCfg) (info : Metadata) (mkr : MkrData) (fwd : Fin 3)
    (fp_info : Option (List (String × String))) (plate_ind : ℕ) (fp : FPData) :
    Except DetectErr (Option (Side × ℤ × ℤ)) :=
  match eclMode fp_info plate_ind with
  | .error e => .error e
  | .ok .skip => .ok none
  | .ok m =>
    match baselineFtot fp with
    | [] => .error .emptyForceData
    | f0 :: ft =>
      let fmax := listMax f0 ft
      let tr := thresholdAndReject cfg m.isAuto info.bodymass fmax
      if tr.2 then .ok none
      else
        match riseFallInds ((f0 :: ft).map (· - tr.1)) with
        | none => .ok none
        | some (fri, ffa) =>
          let strike := nroundQ ((fri : ℚ) / (info.samplesperframe : ℚ))
          let toeoff := nroundQ ((ffa : ℚ) / (info.samplesperframe : ℚ))
          match m with
          | .known s => .ok (some (s, strike, toeoff))
          | _ =>
            match autoValid cfg info mkr fwd fp fri ffa strike with
            | .error e => .error e
            | .ok none => .ok none
            | .ok (some s) => .ok (some (s, strike, toeoff))

/-- Append one accepted strike and toe-off pair to the result lists and
mark the side valid. -/
def recordEvent (acc : FPResults) (s : Side) (strike toeoff : ℤ) : FPResults :=
  match s with
  | .R => { acc with R_strikes := acc.R_strikes ++ [strike],
                     R_toeoffs := acc.R_toeoffs ++ [toeoff],
                     valid := insert .R acc.valid }
  | .L => { acc with L_strikes := acc.L_strikes ++ [strike],
                     L_toeoffs := acc.L_toeoffs ++ [toeoff],
                     valid := insert .L acc.valid }

/-- The plate loop: evaluate plates in order (indices starting from 1),
recording events of accepted plates; a raised exception aborts the whole
analysis. -/
def detectGo (cfg : AutoprocCfg) (info : Metadata) (mkr : MkrData) (fwd : Fin 3)
    (fp_info : Option (List (String × String))) :
    List FPData → ℕ → FPResults → Except DetectErr FPResults
  | [], _, acc => .ok acc
  | fp :: rest, idx, acc =>
    match plateEval cfg info mkr fwd fp_info idx fp with
    | .error e => .error e
    | .ok none => detectGo cfg info mkr fwd fp_info rest (idx + 1) acc
    | .ok (some (s, a, b)) =>
      detectGo cfg info mkr fwd fp_info rest (idx + 1) (recordEvent acc s a b)

/-- `utils.detect_forceplate_events`: find the walking direction from the
summed foot markers, then evaluate every plate. -/
def detect_forceplate_events (cfg : AutoprocCfg) (info : Metadata) (mkr : MkrData)
    (fp_info : Option (List (String × String))) (fpdata : List FPData) :
    Except DetectErr FPResults :=
  detectGo cfg info mkr (fwdDir cfg mkr) fp_info fpdata 1 emptyResults

end FootGeometry

noncomputable section StepWidth

/-- One step-width sample of `analysis._step_width`: normalize the step
line from the ipsilateral toe at one strike to the next, project the
contralateral toe position (relative to the first strike) onto it, and
take the norm of the residual. -/
def swSample (pt pn pnc : Vec3R) : ℝ :=
  let V1 := normalizeV (vsub pn pt)
  let VC := vsub pnc pt
  let VCP := smul (dot3 VC V1) V1
  norm3 (vsub VCP VC)

/-- The strike loop of `analysis._step_width` for one context: stop at the
last ipsilateral strike or when no later contralateral strike exists;
otherwise emit a sample and continue.  Frame indexing into the trajectory
uses a zero default where numpy would raise; no theorem below touches
out-of-range frames. -/
def swGo (mdata mdata_co : List Vec3Q) (strikes_co : List ℕ) (last : ℕ) :
    List ℕ → List ℝ
  | [] => []
  | s :: rest =>
    if s = last then []
    else
      match rest with
      | [] => []
      | s2 :: _ =>
        match (strikes_co.filter fun k => s < k).head? with
        | none => []
        | some c =>
          swSample (castVec (mdata.getD s (0, 0, 0)))
              (castVec (mdata.getD s2 (0, 0, 0)))
              (castVec (mdata_co.getD c (0, 0, 0))) ::
            swGo mdata mdata_co strikes_co last rest

/-- `analysis._step_width`: per-context lists of step-width samples, empty
for a context with fewer than two strikes.  The `Trial` object that
supplies the toe trajectories and the strike lists in the source is not
among the sources under inspection, so its data is passed directly. -/
def step_width (mdataL mdataR : List Vec3Q) (lstrikes rstrikes : List ℕ) :
    List ℝ × List ℝ :=
  let swL :=
    if lstrikes.length < 2 then []
    else
      match lstrikes.getLast? with
      | none => []
      | some last => swGo mdataL mdataR rstrikes last lstrikes
  let swR :=
    if rstrikes.length < 2 then []
    else
      match rstrikes.getLast? with
      | none => []
      | some last => swGo mdataR mdataL lstrikes last rstrikes
  (swL, swR)

end StepWidth

section EmgData

/-- The state of an `EMG` instance that `get_channel_data` can read or
write: the cached per-channel sample arrays, the configured passband, the
sampling rate and the correction factor. -/
structure EMGState where
  data : List (List Char × List ℚ)
  passband : Option (ℚ × ℚ)
  sfrate : ℚ
  correction_factor : ℚ
deriving DecidableEq

/-- Cached samples of a channel (the dictionary access `self.data[ch]`;
the name always comes from `_match_name`, so it is present). -/
def lookupCh (d : List (List Char × List ℚ)) (name : List Char) : List ℚ :=
  (List.lookup name d).getD []

/-- Replace the cached array of one channel. -/
def updateCh (d : List (List Char × List ℚ)) (name : List Char) (v : List ℚ) :
    List (List Char × List ℚ) :=
  d.map fun p => if p.1 = name then (p.1, v) else p

/-- `EMG.get_channel_data(chname, rms)`: resolve the channel name, then
return moving-window RMS data, passband-filtered data, or the raw cached
array, finally multiplying by the correction factor.  The RMS and
forward-backward filter routines live in `numutils`, which is not among
the sources under inspection; they are passed as functions and, as both
return freshly allocated arrays in the source, the in-place `data *=
correction_factor` touches the cache exactly when the raw branch is
taken, which the embedding renders as a state update of that channel. -/
def get_channel_data (filtF : List ℚ → ℚ × ℚ → ℚ → List ℚ)
    (rmsF : List ℚ → ℕ → List ℚ) (rmsWin : ℕ) (st : EMGState) (ch : List Char)
    (rms : Bool) : Except MatchErr (List ℚ × EMGState) :=
  match matchName (st.data.map Prod.fst) ch with
  | .error e => .error e
  | .ok name =>
    let raw := lookupCh st.data name
    if rms then .ok ((rmsF raw rmsWin).map (· * st.correction_factor), st)
    else
      match st.passband with
      | some pb => .ok ((filtF raw pb st.sfrate).map (· * st.correction_factor), st)
      | none =>
        let newd := raw.map (· * st.correction_factor)
        .ok (newd, { st with data := updateCh st.data name newd })

end EmgData

section HelperLemmas

/-- Decidable equality for `Except` values, used to evaluate the detector
on concrete inputs. -/
instance {ε α : Type} [DecidableEq ε] [DecidableEq α] : DecidableEq (Except ε α) :=
  fun a b =>
    match a, b with
    | .ok x, .ok y =>
      if h : x = y then .isTrue (by rw [h]) else .isFalse (by simp [h])
    | .error x, .error y =>
      if h : x = y then .isTrue (by rw [h]) else .isFalse (by simp [h])
    | .ok _, .error _ => .isFalse (by simp)
    | .error _, .ok _ => .isFalse (by simp)

/-- Python `min(·, key=len)` returns an element of the list, of minimal
length among its elements. -/
theorem minByLen_spec : ∀ (t : List (List Char)) (h : List Char),
    minByLen h t ∈ h :: t ∧ ∀ x ∈ h :: t, (minByLen h t).length ≤ x.length := by
  intro t
  induction t with
  | nil =>
    intro h
    refine ⟨List.mem_cons_self _ _, ?_⟩
    intro x hx
    rcases List.mem_cons.mp hx with h1 | h1
    · subst h1; exact le_rfl
    · simp at h1
  | cons y ys ih =>
    intro h
    have hstep : minByLen h (y :: ys)
        = minByLen (if y.length < h.length then y else h) ys := rfl
    obtain ⟨ihmem, ihle⟩ := ih (if y.length < h.length then y else h)
    have hfh : (if y.length < h.length then y else h).length ≤ h.length := by
      split <;> omega
    have hfy : (if y.length < h.length then y else h).length ≤ y.length := by
      split <;> omega
    constructor
    · rw [hstep]
      rcases List.mem_cons.mp ihmem with h1 | h1
      · rw [h1]
        split
        · exact List.mem_cons_of_mem _ (List.mem_cons_self _ _)
        · exact List.mem_cons_self _ _
      · exact List.mem_cons_of_mem _ (List.mem_cons_of_mem _ h1)
    · intro x hx
      rw [hstep]
      rcases List.mem_cons.mp hx with h1 | h1
      · subst h1
        exact le_trans (ihle _ (List.mem_cons_self _ _)) hfh
      · rcases List.mem_cons.mp h1 with h2 | h2
        · subst h2
          exact le_trans (ihle _ (List.mem_cons_self _ _)) hfy
        · exact ihle _ (List.mem_cons_of_mem _ h2)

end HelperLemmas

section Claims

/-- C4: for a passband `(low, 0)` with `low > 0`, `butter_filt` is supposed
to design a high-pass Butterworth filter with normalized cutoff
`2 * low / sampleRate`; the source instead hands `passbandn[1]`, the entry
just tested to be zero, to `signal.butter`, so at `passband = (10, 0)`,
`sfreq = 1000` the requested design is a high-pass at normalized cutoff 0
rather than at `2 * 10 / 1000`.  (`scipy.signal.butter` rejects a critical
frequency of 0, so this branch can never succeed at run time.) -/
theorem butter_filt_highpass_cutoff :
    butter_filt (some [10, 0]) 1000 = .ok (.highpass 0) ∧
      (0 : ℚ) ≠ 2 * 10 / 1000 := by
  exact ⟨by norm_num [butter_filt], by norm_num⟩

/-- Alter only the minimum-weight fraction of the configuration. -/
def setMinW (cfg : AutoprocCfg) (w : ℚ) : AutoprocCfg :=
  { cfg with forceplate_min_weight := w }

/-- C3: with unknown body mass the force threshold is
`forceplate_contact_threshold * fmax` and the minimum-weight check is
skipped (never rejects, and the plate evaluation does not depend on the
minimum-weight fraction at all); with known mass the threshold is
`forceplate_contact_threshold * mass * 9.81`. -/
theorem force_threshold_formula (cfg : AutoprocCfg) (detect : Bool)
    (fmax m w₁ w₂ : ℚ) (info : Metadata) (mkr : MkrData) (fwd : Fin 3)
    (fpi : Option (List (String × String))) (idx : ℕ) (fp : FPData)
    (hbm : info.bodymass = none) :
    (thresholdAndReject cfg detect none fmax).1
        = cfg.forceplate_contact_threshold * fmax ∧
      (thresholdAndReject cfg detect none fmax).2 = false ∧
      (thresholdAndReject cfg detect (some m) fmax).1
        = cfg.forceplate_contact_threshold * m * (981 / 100) ∧
      plateEval (setMinW cfg w₁) info mkr fwd fpi idx fp
        = plateEval (setMinW cfg w₂) info mkr fwd fpi idx fp := by
  refine ⟨rfl, rfl, rfl, ?_⟩
  suffices h : ∀ w, plateEval (setMinW cfg w) info mkr fwd fpi idx fp
      = plateEval cfg info mkr fwd fpi idx fp by rw [h, h]
  intro w
  unfold plateEval
  rw [hbm]
  rfl

/-- Witness for C3 at `fmax = 500`, body mass unknown: the threshold falls
back to `relContactFraction × 500` and two different minimum-weight
fractions give the same plate evaluation. -/
theorem force_threshold_formula_witness :
    (thresholdAndReject ⟨1/5, 0, 0, 0, 0, [], []⟩ true none 500).1
        = (⟨1/5, 0, 0, 0, 0, [], []⟩ : AutoprocCfg).forceplate_contact_threshold * 500 ∧
      (thresholdAndReject ⟨1/5, 0, 0, 0, 0, [], []⟩ true none 500).2 = false ∧
      (thresholdAndReject ⟨1/5, 0, 0, 0, 0, [], []⟩ true (some 70) 500).1
        = (⟨1/5, 0, 0, 0, 0, [], []⟩ : AutoprocCfg).forceplate_contact_threshold
            * 70 * (981 / 100) ∧
      plateEval (setMinW ⟨1/5, 0, 0, 0, 0, [], []⟩ 0) ⟨none, 8, 100, 2⟩ (fun _ => [])
          0 none 1 ⟨[], [], (0, 0, 0), (0, 0, 0)⟩
        = plateEval (setMinW ⟨1/5, 0, 0, 0, 0, [], []⟩ 1) ⟨none, 8, 100, 2⟩
            (fun _ => []) 0 none 1 ⟨[], [], (0, 0, 0), (0, 0, 0)⟩ :=
  force_threshold_formula ⟨1/5, 0, 0, 0, 0, [], []⟩ true 500 70 0 1
    ⟨none, 8, 100, 2⟩ (fun _ => []) 0 none 1 ⟨[], [], (0, 0, 0), (0, 0, 0)⟩ rfl

/-- C8: channel lookup keeps exactly the available names containing the
requested string; it fails with a `KeyError` when none matches, returns a
shortest match otherwise (several matches only produce a warning, not a
failure), and on `LGas` against `Voltage.LGas8` and
`Voltage.LGas8_filtered` it returns `Voltage.LGas8` with the
multiple-match warning logged. -/
theorem emg_match_shortest (avail : List (List Char)) (ch : List Char)
    (h2 : 2 ≤ ch.length) :
    ((∀ x ∈ avail, ¬ ch <:+: x) → matchName avail ch = .error .noMatch) ∧
      (∀ r, matchName avail ch = .ok r →
        r ∈ avail ∧ ch <:+: r ∧ ∀ x ∈ avail, ch <:+: x → r.length ≤ x.length) ∧
      ((∃ x ∈ avail, ch <:+: x) → ∃ r, matchName avail ch = .ok r) ∧
      (matchName ["Voltage.LGas8".data, "Voltage.LGas8_filtered".data] "LGas".data
          = .ok "Voltage.LGas8".data ∧
        matchWarns ["Voltage.LGas8".data, "Voltage.LGas8_filtered".data] "LGas".data
          = true) := by
  have hm : ∀ x, x ∈ chMatches avail ch ↔ x ∈ avail ∧ ch <:+: x := by
    intro x
    simp [chMatches]
  refine ⟨?_, ?_, ?_, by decide, by decide⟩
  · intro hnone
    have : chMatches avail ch = [] := by
      rw [List.eq_nil_iff_forall_not_mem]
      intro x hx
      exact hnone x ((hm x).mp hx).1 ((hm x).mp hx).2
    rw [matchName, if_neg (by omega), this]
  · intro r hr
    rw [matchName] at hr
    rw [if_neg (by omega)] at hr
    rcases hmatch : chMatches avail ch with _ | ⟨m, ms⟩
    · rw [hmatch] at hr; exact absurd hr (by simp)
    · rw [hmatch] at hr
      have hrv : r = minByLen m ms := by
        have := hr
        simp only [Except.ok.injEq] at this
        exact this.symm
      have hmem : r ∈ m :: ms := hrv ▸ (minByLen_spec ms m).1
      have hmem' : r ∈ chMatches avail ch := hmatch ▸ hmem
      refine ⟨((hm r).mp hmem').1, ((hm r).mp hmem').2, ?_⟩
      intro x hx hsub
      have hxm : x ∈ m :: ms := hmatch ▸ (hm x).mpr ⟨hx, hsub⟩
      exact hrv ▸ (minByLen_spec ms m).2 x hxm
  · rintro ⟨x, hx, hsub⟩
    have hne : chMatches avail ch ≠ [] := by
      intro hnil
      have := (hm x).mpr ⟨hx, hsub⟩
      rw [hnil] at this
      simp at this
    rcases hmatch : chMatches avail ch with _ | ⟨m, ms⟩
    · exact absurd hmatch hne
    · exact ⟨minByLen m ms, by rw [matchName, if_neg (by omega), hmatch]⟩

/-- Witness for C8, Scenario E: looking up `LGas` among `Voltage.LGas8`
and `Voltage.LGas8_filtered` returns the shorter `Voltage.LGas8`. -/
theorem emg_match_shortest_witness :
    matchName ["Voltage.LGas8".data, "Voltage.LGas8_filtered".data] "LGas".data
      = .ok "Voltage.LGas8".data :=
  (emg_match_shortest ["Voltage.LGas8".data, "Voltage.LGas8_filtered".data]
    "LGas".data (by decide)).2.2.2.1

/-- Updating the cached array of a channel does not change the set of
channel names. -/
theorem updateCh_map_fst (d : List (List Char × List ℚ)) (n : List Char)
    (v : List ℚ) : (updateCh d n v).map Prod.fst = d.map Prod.fst := by
  induction d with
  | nil => rfl
  | cons p ps ih =>
    show ((if p.1 = n then (p.1, v) else p) :: updateCh ps n v).map Prod.fst = _
    simp only [List.map_cons]
    rw [ih]
    congr 1
    split <;> rfl

/-- Looking a channel up after its cache entry was replaced yields the
replacement. -/
theorem lookup_updateCh (d : List (List Char × List ℚ)) (n : List Char)
    (v : List ℚ) (hmem : n ∈ d.map Prod.fst) :
    List.lookup n (updateCh d n v) = some v := by
  induction d with
  | nil => simp at hmem
  | cons p ps ih =>
    show List.lookup n ((if p.1 = n then (p.1, v) else p) :: updateCh ps n v) = some v
    by_cases hp : p.1 = n
    · rw [if_pos hp]
      simp [List.lookup, hp]
    · rw [if_neg hp]
      have hmem2 : n ∈ p.1 :: ps.map Prod.fst := hmem
      have hmem' : n ∈ ps.map Prod.fst := by
        rcases List.mem_cons.mp hmem2 with h1 | h1
        · exact absurd h1.symm hp
        · exact h1
      have hne : (n == p.1) = false := by
        simp only [beq_eq_false_iff_ne, ne_eq]
        exact fun h => hp h.symm
      simp [List.lookup, hne, ih hmem']

/-- A successful channel-name match returns one of the available names. -/
theorem matchName_ok_mem (avail : List (List Char)) (ch r : List Char)
    (h : matchName avail ch = .ok r) : r ∈ avail := by
  rw [matchName] at h
  split at h
  · exact absurd h (by simp)
  · rcases hmatch : chMatches avail ch with _ | ⟨m, ms⟩ <;> rw [hmatch] at h
    · exact absurd h (by simp)
    · have hr : r = minByLen m ms := by
        simp only [Except.ok.injEq] at h
        exact h.symm
      have hmem : r ∈ chMatches avail ch := hmatch ▸ (hr ▸ (minByLen_spec ms m).1)
      have := List.mem_filter.mp hmem
      exact this.1

/-- C10: with an unset passband and `rms=False`, `get_channel_data`
multiplies the cached raw array in place by the correction factor and
returns it, so the call mutates the instance cache and a second identical
call yields the samples scaled by the factor twice. -/
theorem emg_raw_read_squares (filtF : List ℚ → ℚ × ℚ → ℚ → List ℚ)
    (rmsF : List ℚ → ℕ → List ℚ) (rmsWin : ℕ) (st : EMGState)
    (ch name : List Char) (raw : List ℚ) (c : ℚ) (st1 : EMGState)
    (hpb : st.passband = none)
    (hname : matchName (st.data.map Prod.fst) ch = .ok name)
    (hraw : raw = lookupCh st.data name)
    (hc : c = st.correction_factor)
    (hst1 : st1 = { st with data := updateCh st.data name (raw.map (· * c)) }) :
    get_channel_data filtF rmsF rmsWin st ch false = .ok (raw.map (· * c), st1) ∧
      get_channel_data filtF rmsF rmsWin st1 ch false
        = .ok (raw.map fun x => x * c * c,
            { st1 with
                data := updateCh st1.data name ((raw.map (· * c)).map (· * c)) }) := by
  have hmem : name ∈ st.data.map Prod.fst := matchName_ok_mem _ _ _ hname
  subst hraw hc hst1
  constructor
  · unfold get_channel_data
    rw [hname]
    simp only [if_neg (by simp : ¬ (false = true))]
    rw [hpb]
  · unfold get_channel_data
    have hkeys : ({ st with
          data := updateCh st.data name ((lookupCh st.data name).map
            (· * st.correction_factor)) } : EMGState).data.map Prod.fst
        = st.data.map Prod.fst := updateCh_map_fst _ _ _
    rw [hkeys, hname]
    simp only [if_neg (by simp : ¬ (false = true))]
    rw [show ({ st with
          data := updateCh st.data name ((lookupCh st.data name).map
            (· * st.correction_factor)) } : EMGState).passband = st.passband from rfl,
      hpb]
    have hlook : lookupCh (updateCh st.data name ((lookupCh st.data name).map
          (· * st.correction_factor))) name
        = (lookupCh st.data name).map (· * st.correction_factor) := by
      unfold lookupCh
      rw [lookup_updateCh _ _ _ hmem]
      rfl
    rw [show lookupCh ({ st with
          data := updateCh st.data name ((lookupCh st.data name).map
            (· * st.correction_factor)) } : EMGState).data name
        = lookupCh (updateCh st.data name ((lookupCh st.data name).map
            (· * st.correction_factor))) name from rfl, hlook]
    rw [List.map_map]
    rfl

/-- Witness for C10: a cached channel `[1, 2]` with correction factor 3 and
no passband reads as `[3, 6]` first (mutating the cache) and `[9, 18]` on
the second identical call. -/
theorem emg_raw_read_squares_witness :
    get_channel_data (fun l _ _ => l) (fun l _ => l) 0
        ⟨[(['a', 'b'], [1, 2])], none, 1000, 3⟩ ['a', 'b'] false
      = .ok ([3, 6], ⟨[(['a', 'b'], [3, 6])], none, 1000, 3⟩) ∧
    get_channel_data (fun l _ _ => l) (fun l _ => l) 0
        ⟨[(['a', 'b'], [3, 6])], none, 1000, 3⟩ ['a', 'b'] false
      = .ok ([9, 18], ⟨[(['a', 'b'], [9, 18])], none, 1000, 3⟩) := by
  have h := emg_raw_read_squares (fun l _ _ => l) (fun l _ => l) 0
    ⟨[(['a', 'b'], [1, 2])], none, 1000, 3⟩ ['a', 'b'] ['a', 'b'] [1, 2] 3
    ⟨[(['a', 'b'], [3, 6])], none, 1000, 3⟩ rfl (by decide) (by decide) rfl
    (by norm_num [updateCh])
  refine ⟨?_, ?_⟩
  · rw [h.1]
    norm_num
  · rw [h.2]
    norm_num [updateCh]

/-- A trial whose force trace is high at the start: the plate is loaded
from frame 0, unloaded around analog samples 11-13, and loaded again.
Two frames at 8 analog samples per frame. -/
def ftotC2 : List ℚ :=
  [100, 100, 100, 100, 100, 100, 100, 100, 100, 100, 100, 0, 100, -5, 100, 100]

/-- The forceplate record for the order counterexample. -/
def fpC2 : FPData := ⟨ftotC2, [], (0, 0, 0), (0, 0, 0)⟩

/-- Metadata for the order counterexample: unknown body mass, 8 analog
samples per frame, two frames. -/
def infoC2 : Metadata := ⟨none, 8, 100, 2⟩

/-- Configuration for the order counterexample. -/
def cfgC2 : AutoprocCfg := ⟨1/5, 0, 0, 0, 0, [], []⟩

/-- Marker data for the order counterexample (unused by the externally
assigned plate). -/
def mkrC2 : MkrData := fun _ => []

/-- Eclipse info assigning plate 1 to the right foot. -/
def fpiC2 : Option (List (String × String)) := some [("FP1", "Right")]

/-- The walking direction of the degenerate marker data of the
counterexample trial. -/
theorem fwdC2_eval : fwdDir cfgC2 mkrC2 = 0 := by
  norm_num [fwdDir, cfgC2, mkrC2, sumTrajs, varQ, argmax3]

set_option maxRecDepth 4000 in
/-- Plate evaluation on `ftotC2`: the median-filtered and baselined force
stays above the threshold from the trial start, so the first rising
crossing (analog sample 12) comes after the last falling crossing
(analog sample 11); rounding puts the strike at frame 2 and the toe-off
at frame 1 for the externally assigned right side. -/
theorem plateC2_eval : plateEval cfgC2 infoC2 mkrC2 0 fpiC2 1 fpC2
    = .ok (some (.R, 2, 1)) := by
  have hecl : eclMode fpiC2 1 = .ok (.known .R) := by decide
  have hbase : baselineFtot fpC2
      = [100, 100, 100, 100, 100, 100, 100, 100, 100, 100, 100, 100, 0, 100,
          100, 100] := by
    norm_num [baselineFtot, fpC2, ftotC2, medfilt3, medfilt3Go, med3,
      baselineSub, listMin, min_def, max_def]
  rw [plateEval, hecl, hbase]
  norm_num [listMax, thresholdAndReject, cfgC2, infoC2, EclMode.isAuto,
    riseFallInds, risingZC, risingZCGo, fallingZC, fallingZCGo, nroundQ,
    min_def, max_def]

/-- Concrete evaluation of the whole detector on the counterexample
trial. -/
theorem detectC2_run :
    detect_forceplate_events cfgC2 infoC2 mkrC2 fpiC2 [fpC2]
      = .ok ⟨[2], [1], [], [], {Side.R}⟩ := by
  rw [detect_forceplate_events, fwdC2_eval, detectGo, plateC2_eval]
  rfl

/-- C2 counterexample: on `ftotC2` (16 analog samples, 2 frames, 8 samples
per frame, externally assigned side `Right`, body mass unknown) the
detector records the strike at frame 2 and the toe-off at frame 1, so the
strike frame is not strictly below the toe-off frame, and the strike
frame 2 equals `frame_count`, which is outside `[0, frame_count)`.  Both
parts of the claimed invariant fail. -/
theorem strike_before_toeoff_counterexample :
    detect_forceplate_events cfgC2 infoC2 mkrC2 fpiC2 [fpC2]
        = .ok ⟨[2], [1], [], [], {Side.R}⟩ ∧
      fpC2.Ftot.length = infoC2.frame_count * infoC2.samplesperframe ∧
      ¬ ((2 : ℤ) < 1) ∧ ¬ ((2 : ℤ) < (infoC2.frame_count : ℤ)) :=
  ⟨detectC2_run, by decide, by decide, by decide⟩

/-- The width-3 median filter preserves the number of samples. -/
theorem medfilt3Go_length : ∀ (l : List ℚ) (prev : ℚ),
    (medfilt3Go prev l).length = l.length := by
  intro l
  induction l with
  | nil => intro prev; rfl
  | cons x t ih =>
    intro prev
    cases t with
    | nil => rfl
    | cons y rest => simp [medfilt3Go, ih]

/-- Baselining preserves the number of samples. -/
theorem baselineSub_length (l : List ℚ) : (baselineSub l).length = l.length := by
  cases l <;> simp [baselineSub]

/-- Force preprocessing preserves the number of analog samples. -/
theorem baselineFtot_length (fp : FPData) :
    (baselineFtot fp).length = fp.Ftot.length := by
  rw [baselineFtot, baselineSub_length]
  exact medfilt3Go_length _ _

/-- A rising zero crossing is at most two samples from the signal end. -/
theorem risingZCGo_bound : ∀ (l : List ℚ) (i j : ℕ),
    j ∈ risingZCGo i l → j + 2 ≤ i + l.length := by
  intro l
  induction l with
  | nil => intro i j hj; simp [risingZCGo] at hj
  | cons x t ih =>
    intro i j hj
    cases t with
    | nil => simp [risingZCGo] at hj
    | cons y rest =>
      rw [risingZCGo] at hj
      split at hj
      · rcases List.mem_cons.mp hj with h1 | h1
        · subst h1; simp only [List.length_cons]; omega
        · have := ih (i + 1) j h1
          simp only [List.length_cons] at this ⊢
          omega
      · have := ih (i + 1) j hj
        simp only [List.length_cons] at this ⊢
        omega

/-- A falling zero crossing is at most two samples from the signal end. -/
theorem fallingZCGo_bound : ∀ (l : List ℚ) (i j : ℕ),
    j ∈ fallingZCGo i l → j + 2 ≤ i + l.length := by
  intro l
  induction l with
  | nil => intro i j hj; simp [fallingZCGo] at hj
  | cons x t ih =>
    intro i j hj
    cases t with
    | nil => simp [fallingZCGo] at hj
    | cons y rest =>
      rw [fallingZCGo] at hj
      split at hj
      · rcases List.mem_cons.mp hj with h1 | h1
        · subst h1; simp only [List.length_cons]; omega
        · have := ih (i + 1) j h1
          simp only [List.length_cons] at this ⊢
          omega
      · have := ih (i + 1) j hj
        simp only [List.length_cons] at this ⊢
        omega

/-- The head of a list is a member. -/
theorem head?_memL {α : Type} {l : List α} {x : α} (h : l.head? = some x) :
    x ∈ l := by
  cases l with
  | nil => simp at h
  | cons a t =>
    simp only [List.head?_cons, Option.some.injEq] at h
    exact h ▸ List.mem_cons_self _ _

/-- The last element of a list is a member. -/
theorem getLast?_memL {α : Type} {l : List α} {x : α} (h : l.getLast? = some x) :
    x ∈ l := by
  obtain ⟨hne, hx⟩ := List.mem_getLast?_eq_getLast (by simpa [Option.mem_def] using h)
  exact hx ▸ List.getLast_mem hne

/-- Rounding a nonnegative rational gives a nonnegative integer. -/
theorem nroundQ_nonneg (q : ℚ) (h : 0 ≤ q) : 0 ≤ nroundQ q := by
  have h0 : (0 : ℤ) ≤ ⌊q⌋ := Int.floor_nonneg.mpr h
  unfold nroundQ
  split_ifs <;> omega

/-- Rounding a rational below an integer stays at or below it. -/
theorem nroundQ_le (q : ℚ) (z : ℤ) (h : q < (z : ℚ)) : nroundQ q ≤ z := by
  have hf : ⌊q⌋ < z := Int.floor_lt.mpr h
  unfold nroundQ
  split_ifs <;> omega

/-- Both crossing indices returned by `riseFallInds` are at most two
samples from the end of the signal. -/
theorem riseFallInds_bound (s : List ℚ) (fri ffa : ℕ)
    (h : riseFallInds s = some (fri, ffa)) :
    fri + 2 ≤ s.length ∧ ffa + 2 ≤ s.length := by
  unfold riseFallInds at h
  split at h
  · rename_i a c ha hc
    simp only [Option.some.injEq, Prod.mk.injEq] at h
    obtain ⟨h1, h2⟩ := h
    constructor
    · have := risingZCGo_bound s 0 a (head?_memL ha)
      omega
    · have := fallingZCGo_bound s 0 c (getLast?_memL hc)
      omega
  · simp at h

/-- Every frame recorded by the plate loop body lies within
`[0, frame_count]` when the plate carries `frame_count × samplesperframe`
analog samples. -/
theorem plateEval_frames_bound (cfg : AutoprocCfg) (info : Metadata)
    (mkr : MkrData) (fwd : Fin 3) (fpi : Option (List (String × String)))
    (idx : ℕ) (fp : FPData) (s : Side) (a b : ℤ) (N : ℕ)
    (hlen : fp.Ftot.length = N * info.samplesperframe)
    (hspf : 0 < info.samplesperframe)
    (h : plateEval cfg info mkr fwd fpi idx fp = .ok (some (s, a, b))) :
    (0 ≤ a ∧ a ≤ (N : ℤ)) ∧ (0 ≤ b ∧ b ≤ (N : ℤ)) := by
  unfold plateEval at h
  split at h
  · simp at h
  · simp at h
  · rename_i m hne heclm
    split at h
    · simp at h
    · rename_i f0 ft hbase
      simp only at h
      split at h
      · simp at h
      · split at h
        · simp at h
        · rename_i fri ffa hrf
          have hlen2 : ((f0 :: ft).map
              (· - (thresholdAndReject cfg m.isAuto info.bodymass
                (listMax f0 ft)).1)).length = N * info.samplesperframe := by
            rw [List.length_map]
            have := baselineFtot_length fp
            rw [hbase] at this
            omega
          obtain ⟨hfri, hffa⟩ := riseFallInds_bound _ _ _ hrf
          rw [hlen2] at hfri hffa
          have hfq : ((fri : ℚ) / (info.samplesperframe : ℚ) < (N : ℚ)) := by
            rw [div_lt_iff (by exact_mod_cast hspf)]
            have : (fri : ℚ) < (N * info.samplesperframe : ℕ) := by
              exact_mod_cast Nat.lt_of_lt_of_le (by omega) le_rfl
            calc (fri : ℚ) < ((N * info.samplesperframe : ℕ) : ℚ) := this
              _ = (N : ℚ) * (info.samplesperframe : ℚ) := by push_cast; ring
          have hbq : ((ffa : ℚ) / (info.samplesperframe : ℚ) < (N : ℚ)) := by
            rw [div_lt_iff (by exact_mod_cast hspf)]
            have : (ffa : ℚ) < ((N * info.samplesperframe : ℕ) : ℚ) := by
              exact_mod_cast Nat.lt_of_lt_of_le (by omega) le_rfl
            calc (ffa : ℚ) < ((N * info.samplesperframe : ℕ) : ℚ) := this
              _ = (N : ℚ) * (info.samplesperframe : ℚ) := by push_cast; ring
          have hstrike : 0 ≤ nroundQ ((fri : ℚ) / (info.samplesperframe : ℚ)) ∧
              nroundQ ((fri : ℚ) / (info.samplesperframe : ℚ)) ≤ (N : ℤ) :=
            ⟨nroundQ_nonneg _ (by positivity),
              nroundQ_le _ _ (by exact_mod_cast hfq)⟩
          have htoe : 0 ≤ nroundQ ((ffa : ℚ) / (info.samplesperframe : ℚ)) ∧
              nroundQ ((ffa : ℚ) / (info.samplesperframe : ℚ)) ≤ (N : ℤ) :=
            ⟨nroundQ_nonneg _ (by positivity),
              nroundQ_le _ _ (by exact_mod_cast hbq)⟩
          split at h
          · simp only [Except.ok.injEq, Option.some.injEq, Prod.mk.injEq] at h
            obtain ⟨-, ha, hb⟩ := h
            exact ⟨ha ▸ hstrike, hb ▸ htoe⟩
          · split at h
            · simp at h
            · simp at h
            · simp only [Except.ok.injEq, Option.some.injEq, Prod.mk.injEq] at h
              obtain ⟨-, ha, hb⟩ := h
              exact ⟨ha ▸ hstrike, hb ▸ htoe⟩

/-- All frames already recorded lie within `[0, frame_count]`. -/
def framesInBounds (N : ℕ) (r : FPResults) : Prop :=
  (∀ x ∈ r.R_strikes, 0 ≤ x ∧ x ≤ (N : ℤ)) ∧
  (∀ x ∈ r.R_toeoffs, 0 ≤ x ∧ x ≤ (N : ℤ)) ∧
  (∀ x ∈ r.L_strikes, 0 ≤ x ∧ x ≤ (N : ℤ)) ∧
  (∀ x ∈ r.L_toeoffs, 0 ≤ x ∧ x ≤ (N : ℤ))

/-- Recording one in-bounds event preserves the bounds invariant. -/
theorem framesInBounds_record (N : ℕ) (acc : FPResults) (s : Side) (a b : ℤ)
    (hacc : framesInBounds N acc) (ha : 0 ≤ a ∧ a ≤ (N : ℤ))
    (hb : 0 ≤ b ∧ b ≤ (N : ℤ)) :
    framesInBounds N (recordEvent acc s a b) := by
  obtain ⟨h1, h2, h3, h4⟩ := hacc
  cases s
  · refine ⟨?_, ?_, h3, h4⟩ <;> intro x hx
    · rcases List.mem_append.mp hx with hm | hm
      · exact h1 x hm
      · rw [List.mem_singleton.mp hm]; exact ha
    · rcases List.mem_append.mp hx with hm | hm
      · exact h2 x hm
      · rw [List.mem_singleton.mp hm]; exact hb
  · refine ⟨h1, h2, ?_, ?_⟩ <;> intro x hx
    · rcases List.mem_append.mp hx with hm | hm
      · exact h3 x hm
      · rw [List.mem_singleton.mp hm]; exact ha
    · rcases List.mem_append.mp hx with hm | hm
      · exact h4 x hm
      · rw [List.mem_singleton.mp hm]; exact hb

/-- The plate loop preserves the frame-bounds invariant. -/
theorem detectGo_frames_bound (cfg : AutoprocCfg) (info : Metadata)
    (mkr : MkrData) (fwd : Fin 3) (fpi : Option (List (String × String)))
    (N : ℕ) (hspf : 0 < info.samplesperframe) :
    ∀ (fps : List FPData) (idx : ℕ) (acc r : FPResults),
      (∀ fp ∈ fps, fp.Ftot.length = N * info.samplesperframe) →
      framesInBounds N acc →
      detectGo cfg info mkr fwd fpi fps idx acc = .ok r →
      framesInBounds N r := by
  intro fps
  induction fps with
  | nil =>
    intro idx acc r _ hacc h
    rw [detectGo] at h
    simp only [Except.ok.injEq] at h
    exact h ▸ hacc
  | cons fp rest ih =>
    intro idx acc r hlen hacc h
    rw [detectGo] at h
    split at h
    · simp at h
    · exact ih _ _ _ (fun f hf => hlen f (List.mem_cons_of_mem _ hf)) hacc h
    · rename_i s a b heq
      have hbd := plateEval_frames_bound cfg info mkr fwd fpi _ fp s a b N
        (hlen fp (List.mem_cons_self _ _)) hspf heq
      exact ih _ _ _ (fun f hf => hlen f (List.mem_cons_of_mem _ hf))
        (framesInBounds_record N acc s a b hacc hbd.1 hbd.2) h

/-- C2 amended: every strike and toe-off frame recorded by
`detect_forceplate_events` lies within `[0, frame_count]` (the upper end
`frame_count` itself is attainable by rounding near the trial end), but
the strike frame need not be strictly below the toe-off frame. -/
theorem detect_frames_within_bounds (cfg : AutoprocCfg) (info : Metadata)
    (mkr : MkrData) (fpi : Option (List (String × String)))
    (fps : List FPData) (r : FPResults)
    (hlen : ∀ fp ∈ fps, fp.Ftot.length = info.frame_count * info.samplesperframe)
    (hspf : 0 < info.samplesperframe)
    (hrun : detect_forceplate_events cfg info mkr fpi fps = .ok r) :
    framesInBounds info.frame_count r := by
  exact detectGo_frames_bound cfg info mkr (fwdDir cfg mkr) fpi info.frame_count
    hspf fps 1 emptyResults r hlen
    ⟨by intro x hx; simp [emptyResults] at hx,
     by intro x hx; simp [emptyResults] at hx,
     by intro x hx; simp [emptyResults] at hx,
     by intro x hx; simp [emptyResults] at hx⟩ hrun

/-- Witness for the amended C2 on the concrete two-frame trial: the
recorded frames 2 and 1 lie within `[0, frame_count] = [0, 2]`. -/
theorem detect_frames_within_bounds_witness :
    framesInBounds infoC2.frame_count ⟨[2], [1], [], [], {Side.R}⟩ :=
  detect_frames_within_bounds cfgC2 infoC2 mkrC2 fpiC2 [fpC2]
    ⟨[2], [1], [], [], {Side.R}⟩ (by decide) (by decide) detectC2_run

/-- Folding `min` over a list never exceeds the start value. -/
theorem foldl_min_le : ∀ (t : List ℚ) (acc : ℚ), t.foldl min acc ≤ acc := by
  intro t
  induction t with
  | nil => intro acc; exact le_rfl
  | cons x xs ih =>
    intro acc
    calc (x :: xs).foldl min acc = xs.foldl min (min acc x) := rfl
      _ ≤ min acc x := ih _
      _ ≤ acc := min_le_left _ _

/-- Folding `max` over a list never drops below the start value. -/
theorem foldl_max_ge : ∀ (t : List ℚ) (acc : ℚ), acc ≤ t.foldl max acc := by
  intro t
  induction t with
  | nil => intro acc; exact le_rfl
  | cons x xs ih =>
    intro acc
    calc acc ≤ max acc x := le_max_left _ _
      _ ≤ xs.foldl max (max acc x) := ih _
      _ = (x :: xs).foldl max acc := rfl

/-- The maximum of the baselined force is nonnegative: baselining
subtracts the lowest signal level. -/
theorem baselined_fmax_nonneg (fp : FPData) (f0 : ℚ) (ft : List ℚ)
    (h : baselineFtot fp = f0 :: ft) : 0 ≤ listMax f0 ft := by
  rw [baselineFtot] at h
  rcases hm : medfilt3 fp.Ftot with _ | ⟨h0, t0⟩
  · rw [hm] at h; simp [baselineSub] at h
  · rw [hm] at h
    have hh : f0 = h0 - listMin h0 t0 := by
      simp only [baselineSub, List.map_cons, List.cons.injEq] at h
      exact h.1.symm
    have h1 : 0 ≤ f0 := by
      rw [hh]
      have := foldl_min_le t0 h0
      simp only [listMin]
      linarith
    calc (0 : ℚ) ≤ f0 := h1
      _ ≤ listMax f0 ft := foldl_max_ge ft f0

/-- C6 per-plate monotonicity: a plate accepted with the larger
minimum-weight fraction is accepted, with the same side and frames, with
the smaller one; the rest of the evaluation does not read the fraction. -/
theorem plateEval_minW_mono (cfg : AutoprocCfg) (w₁ w₂ : ℚ) (h0 : 0 ≤ w₁)
    (h12 : w₁ ≤ w₂) (info : Metadata) (mkr : MkrData) (fwd : Fin 3)
    (fpi : Option (List (String × String))) (idx : ℕ) (fp : FPData)
    (s : Side) (a b : ℤ)
    (h : plateEval (setMinW cfg w₂) info mkr fwd fpi idx fp = .ok (some (s, a, b))) :
    plateEval (setMinW cfg w₁) info mkr fwd fpi idx fp = .ok (some (s, a, b)) := by
  rcases hbm : info.bodymass with _ | mass
  · have hinv : ∀ w, plateEval (setMinW cfg w) info mkr fwd fpi idx fp
        = plateEval cfg info mkr fwd fpi idx fp := by
      intro w
      unfold plateEval
      rw [hbm]
      rfl
    rw [hinv] at h ⊢
    exact h
  · unfold plateEval at h ⊢
    split at h
    · simp at h
    · simp at h
    · rename_i m hne heclm
      split at h
      · simp at h
      · rename_i f0 ft hbase
        simp only at h ⊢
        rw [hbm] at h ⊢
        cases m with
        | skip => exact absurd rfl hne
        | known s' =>
          simp only [thresholdAndReject, EclMode.isAuto, Bool.false_and,
            if_neg (by simp : ¬ (false = true))] at h ⊢
          exact h
        | auto =>
          simp only [thresholdAndReject, EclMode.isAuto, Bool.true_and] at h ⊢
          split at h
          · simp at h
          · rename_i hw2
            have hfmax : 0 ≤ listMax f0 ft := baselined_fmax_nonneg fp f0 ft hbase
            have hge : ¬ (listMax f0 ft
                < (setMinW cfg w₂).forceplate_min_weight * mass * (981/100)) := by
              intro hlt
              exact hw2 (by simpa using hlt)
            have hlt1 : ¬ (listMax f0 ft
                < (setMinW cfg w₁).forceplate_min_weight * mass * (981/100)) := by
              intro hlt
              have hw1v : (setMinW cfg w₁).forceplate_min_weight = w₁ := rfl
              have hw2v : (setMinW cfg w₂).forceplate_min_weight = w₂ := rfl
              rw [hw1v] at hlt
              rw [hw2v] at hge
              push_neg at hge
              by_cases hmg : 0 ≤ mass * (981/100 : ℚ)
              · have hmono : w₁ * (mass * (981/100 : ℚ))
                    ≤ w₂ * (mass * (981/100 : ℚ)) :=
                  mul_le_mul_of_nonneg_right h12 hmg
                rw [← mul_assoc, ← mul_assoc] at hmono
                linarith
              · push_neg at hmg
                have hnp : w₁ * (mass * (981/100 : ℚ)) ≤ 0 :=
                  mul_nonpos_of_nonneg_of_nonpos h0 (le_of_lt hmg)
                rw [← mul_assoc] at hnp
                linarith
            rw [if_neg (by simpa using hlt1)]
            exact h

/-- Componentwise sublist relation between two result dictionaries. -/
def resultsSub (r₂ r₁ : FPResults) : Prop :=
  List.Sublist r₂.R_strikes r₁.R_strikes ∧
  List.Sublist r₂.R_toeoffs r₁.R_toeoffs ∧
  List.Sublist r₂.L_strikes r₁.L_strikes ∧
  List.Sublist r₂.L_toeoffs r₁.L_toeoffs ∧
  r₂.valid ⊆ r₁.valid

/-- Recording the same event on both sides preserves the sublist
relation. -/
theorem resultsSub_record_both (acc₂ acc₁ : FPResults) (s : Side) (a b : ℤ)
    (h : resultsSub acc₂ acc₁) :
    resultsSub (recordEvent acc₂ s a b) (recordEvent acc₁ s a b) := by
  obtain ⟨h1, h2, h3, h4, h5⟩ := h
  cases s
  · exact ⟨List.Sublist.append h1 (List.Sublist.refl _),
      List.Sublist.append h2 (List.Sublist.refl _), h3, h4,
      Finset.insert_subset_insert _ h5⟩
  · exact ⟨h1, h2, List.Sublist.append h3 (List.Sublist.refl _),
      List.Sublist.append h4 (List.Sublist.refl _),
      Finset.insert_subset_insert _ h5⟩

/-- Recording an extra event only on the larger run preserves the sublist
relation. -/
theorem resultsSub_record_left (acc₂ acc₁ : FPResults) (s : Side) (a b : ℤ)
    (h : resultsSub acc₂ acc₁) : resultsSub acc₂ (recordEvent acc₁ s a b) := by
  obtain ⟨h1, h2, h3, h4, h5⟩ := h
  cases s
  · exact ⟨h1.trans (List.sublist_append_left _ _),
      h2.trans (List.sublist_append_left _ _), h3, h4,
      h5.trans (Finset.subset_insert _ _)⟩
  · exact ⟨h1, h2, h3.trans (List.sublist_append_left _ _),
      h4.trans (List.sublist_append_left _ _),
      h5.trans (Finset.subset_insert _ _)⟩

/-- The plate loop is monotone in the minimum-weight fraction. -/
theorem detectGo_minW_mono (cfg : AutoprocCfg) (w₁ w₂ : ℚ) (h0 : 0 ≤ w₁)
    (h12 : w₁ ≤ w₂) (info : Metadata) (mkr : MkrData) (fwd : Fin 3)
    (fpi : Option (List (String × String))) :
    ∀ (fps : List FPData) (idx : ℕ) (acc₁ acc₂ r₁ r₂ : FPResults),
      resultsSub acc₂ acc₁ →
      detectGo (setMinW cfg w₁) info mkr fwd fpi fps idx acc₁ = .ok r₁ →
      detectGo (setMinW cfg w₂) info mkr fwd fpi fps idx acc₂ = .ok r₂ →
      resultsSub r₂ r₁ := by
  intro fps
  induction fps with
  | nil =>
    intro idx acc₁ acc₂ r₁ r₂ hsub h₁ h₂
    rw [detectGo] at h₁ h₂
    simp only [Except.ok.injEq] at h₁ h₂
    exact h₁ ▸ h₂ ▸ hsub
  | cons fp rest ih =>
    intro idx acc₁ acc₂ r₁ r₂ hsub h₁ h₂
    rw [detectGo] at h₂
    split at h₂
    · simp at h₂
    · rename_i hp2
      rw [detectGo] at h₁
      split at h₁
      · simp at h₁
      · exact ih _ _ _ _ _ hsub h₁ h₂
      · rename_i s a b hp1
        exact ih _ _ _ _ _ (resultsSub_record_left acc₂ acc₁ s a b hsub) h₁ h₂
    · rename_i s a b hp2
      have hp1 := plateEval_minW_mono cfg w₁ w₂ h0 h12 info mkr fwd fpi idx fp
        s a b hp2
      rw [detectGo, hp1] at h₁
      exact ih _ _ _ _ _ (resultsSub_record_both acc₂ acc₁ s a b hsub) h₁ h₂

/-- C6: raising the minimum-weight fraction (all other inputs and
configuration fixed) can only lose accepted plates: when both runs
complete, every per-side strike and toe-off list of the run with the
larger fraction is a sublist of the corresponding list of the run with
the smaller fraction, and the number of accepted plates (one strike per
accepted plate) does not increase. -/
theorem min_weight_monotone (cfg : AutoprocCfg) (w₁ w₂ : ℚ) (h0 : 0 ≤ w₁)
    (h12 : w₁ ≤ w₂) (info : Metadata) (mkr : MkrData)
    (fpi : Option (List (String × String))) (fps : List FPData)
    (r₁ r₂ : FPResults)
    (h₁ : detect_forceplate_events (setMinW cfg w₁) info mkr fpi fps = .ok r₁)
    (h₂ : detect_forceplate_events (setMinW cfg w₂) info mkr fpi fps = .ok r₂) :
    resultsSub r₂ r₁ ∧
      r₂.R_strikes.length + r₂.L_strikes.length
        ≤ r₁.R_strikes.length + r₁.L_strikes.length := by
  rw [detect_forceplate_events] at h₁ h₂
  have hfwd : fwdDir (setMinW cfg w₂) mkr = fwdDir (setMinW cfg w₁) mkr := rfl
  rw [hfwd] at h₂
  have hsub := detectGo_minW_mono cfg w₁ w₂ h0 h12 info mkr
    (fwdDir (setMinW cfg w₁) mkr) fpi fps 1 emptyResults emptyResults r₁ r₂
    ⟨List.Sublist.refl _, List.Sublist.refl _, List.Sublist.refl _,
      List.Sublist.refl _, Finset.Subset.refl _⟩ h₁ h₂
  refine ⟨hsub, ?_⟩
  obtain ⟨hs1, hs2, hs3, hs4, hs5⟩ := hsub
  exact Nat.add_le_add hs1.length_le hs3.length_le

/-- Witness for C6: on the concrete externally assigned trial, fractions 0
and 1 both accept the single plate, and the sublist and count relations
hold. -/
theorem min_weight_monotone_witness :
    resultsSub ⟨[2], [1], [], [], {Side.R}⟩ ⟨[2], [1], [], [], {Side.R}⟩ ∧
      ([2] : List ℤ).length + ([] : List ℤ).length
        ≤ ([2] : List ℤ).length + ([] : List ℤ).length := by
  have hrun : ∀ w : ℚ, detect_forceplate_events (setMinW cfgC2 w) infoC2 mkrC2
      fpiC2 [fpC2] = .ok ⟨[2], [1], [], [], {Side.R}⟩ := by
    intro w
    have hpe : plateEval (setMinW cfgC2 w) infoC2 mkrC2
        (fwdDir (setMinW cfgC2 w) mkrC2) fpiC2 1 fpC2
        = plateEval cfgC2 infoC2 mkrC2 (fwdDir cfgC2 mkrC2) fpiC2 1 fpC2 := by
      unfold plateEval
      rfl
    have hfwd : fwdDir cfgC2 mkrC2 = 0 := fwdC2_eval
    rw [detect_forceplate_events, detectGo, hpe, hfwd, plateC2_eval]
    rfl
  exact min_weight_monotone cfgC2 0 1 le_rfl (by norm_num) infoC2 mkrC2 fpiC2
    [fpC2] ⟨[2], [1], [], [], {Side.R}⟩ ⟨[2], [1], [], [], {Side.R}⟩
    (hrun 0) (hrun 1)

/-- The squared norm is the self inner product. -/
theorem dot3_self_nonneg (v : Vec3R) : 0 ≤ dot3 v v := by
  obtain ⟨x, y, z⟩ := v
  simp only [dot3]
  nlinarith [mul_self_nonneg x, mul_self_nonneg y, mul_self_nonneg z]

/-- A vector with zero self inner product is the zero vector. -/
theorem dot3_self_eq_zero (v : Vec3R) (h : dot3 v v = 0) :
    v = ((0 : ℝ), (0 : ℝ), (0 : ℝ)) := by
  obtain ⟨x, y, z⟩ := v
  simp only [dot3] at h
  have hx : x = 0 := by nlinarith [mul_self_nonneg x, mul_self_nonneg y, mul_self_nonneg z]
  have hy : y = 0 := by nlinarith [mul_self_nonneg x, mul_self_nonneg y, mul_self_nonneg z]
  have hz : z = 0 := by nlinarith [mul_self_nonneg x, mul_self_nonneg y, mul_self_nonneg z]
  simp [hx, hy, hz]

/-- The norm of a nonzero vector is positive. -/
theorem norm3_pos (v : Vec3R) (h : v ≠ ((0 : ℝ), (0 : ℝ), (0 : ℝ))) :
    0 < norm3 v := by
  rw [norm3]
  apply Real.sqrt_pos.mpr
  rcases lt_or_eq_of_le (dot3_self_nonneg v) with hlt | heq
  · exact hlt
  · exact absurd (dot3_self_eq_zero v heq.symm) h

/-- The norm squared recovers the self inner product. -/
theorem norm3_mul_self (v : Vec3R) : norm3 v * norm3 v = dot3 v v :=
  Real.mul_self_sqrt (dot3_self_nonneg v)

/-- Evaluation principle for the norm at concrete inputs. -/
theorem norm3_eq (v : Vec3R) (a : ℝ) (h0 : 0 ≤ a) (h : dot3 v v = a ^ 2) :
    norm3 v = a := by
  rw [norm3, h, Real.sqrt_sq h0]

/-- `_normalize` produces a unit vector on nonzero input. -/
theorem norm3_normalizeV (v : Vec3R) (h : v ≠ ((0 : ℝ), (0 : ℝ), (0 : ℝ))) :
    norm3 (normalizeV v) = 1 := by
  have hn : norm3 v ≠ 0 := ne_of_gt (norm3_pos v h)
  have hd : norm3 v * norm3 v = dot3 v v := norm3_mul_self v
  obtain ⟨x, y, z⟩ := v
  rw [norm3]
  have hdot : dot3 (normalizeV (x, y, z)) (normalizeV (x, y, z)) = 1 := by
    simp only [normalizeV, dot3] at hd ⊢
    field_simp
    linarith [hd]
  rw [hdot, Real.sqrt_one]

/-- The norm scales by the absolute value of a scalar factor. -/
theorem norm3_smul (c : ℝ) (v : Vec3R) : norm3 (smul c v) = |c| * norm3 v := by
  obtain ⟨x, y, z⟩ := v
  rw [norm3, norm3]
  have : dot3 (smul c (x, y, z)) (smul c (x, y, z))
      = c ^ 2 * dot3 (x, y, z) (x, y, z) := by
    simp only [smul, dot3]
    ring
  rw [this, Real.sqrt_mul (sq_nonneg c), Real.sqrt_sq_eq_abs]

/-- The lateral ankle vector of `_get_foot_points` is perpendicular to the
heel-to-toe line. -/
theorem lankV_perp (haV w : Vec3R) (h : w ≠ ((0 : ℝ), (0 : ℝ), (0 : ℝ))) :
    dot3 (lankV haV (normalizeV w)) w = 0 := by
  have hn : norm3 w ≠ 0 := ne_of_gt (norm3_pos w h)
  have hd : norm3 w * norm3 w = dot3 w w := norm3_mul_self w
  obtain ⟨x, y, z⟩ := w
  obtain ⟨p, q, r⟩ := haV
  simp only [lankV, normalizeV, dot3, vsub, smul] at hd ⊢
  field_simp
  linear_combination (p * x + q * y + r * z) * hd

/-- The median of a single sample is that sample. -/
theorem medianR_singleton (x : ℝ) : medianR [x] = x := by
  simp [medianR, List.insertionSort, List.orderedInsert]

/-- C7 amended: for a frame with distinct heel and toe markers, the
estimated foot box of `_get_foot_points` is the componentwise bounding
box of three points: the heel marker displaced toward the toe by half the
marker diameter (not inflated outward), and two lateral edge points
placed symmetrically about the forward extremity with the ankle's
perpendicular offset from the heel-toe line; the forward extremity lies
at distance `foot_relative_len` times the median heel-ankle distance from
the heel marker (not beyond the toe marker) along the unit heel-to-toe
direction. -/
theorem foot_box_characterization (relLen diam : ℚ) (m : ℝ) (hee toe ank : Vec3R)
    (hne : vsub toe hee ≠ ((0 : ℝ), (0 : ℝ), (0 : ℝ)))
    (hm : 0 ≤ m) (hrel : 0 ≤ (relLen : ℝ)) :
    norm3 (normalizeV (vsub toe hee)) = 1 ∧
      vsub (footEnd relLen m hee (normalizeV (vsub toe hee))) hee
        = smul (m * (relLen : ℝ)) (normalizeV (vsub toe hee)) ∧
      norm3 (vsub (footEnd relLen m hee (normalizeV (vsub toe hee))) hee)
        = m * (relLen : ℝ) ∧
      dot3 (lankV (vsub ank hee) (normalizeV (vsub toe hee))) (vsub toe hee) = 0 ∧
      vsub (heelEdge diam hee (normalizeV (vsub toe hee))) hee
        = smul ((diam : ℝ) / 2) (normalizeV (vsub toe hee)) ∧
      footFrame relLen diam m hee toe ank
        = (vmin (vmin (heelEdge diam hee (normalizeV (vsub toe hee)))
              (vadd (footEnd relLen m hee (normalizeV (vsub toe hee)))
                (lankV (vsub ank hee) (normalizeV (vsub toe hee)))))
            (vsub (footEnd relLen m hee (normalizeV (vsub toe hee)))
              (lankV (vsub ank hee) (normalizeV (vsub toe hee)))),
           vmax (vmax (heelEdge diam hee (normalizeV (vsub toe hee)))
              (vadd (footEnd relLen m hee (normalizeV (vsub toe hee)))
                (lankV (vsub ank hee) (normalizeV (vsub toe hee)))))
            (vsub (footEnd relLen m hee (normalizeV (vsub toe hee)))
              (lankV (vsub ank hee) (normalizeV (vsub toe hee))))) := by
  have hu : norm3 (normalizeV (vsub toe hee)) = 1 := norm3_normalizeV _ hne
  have hsub : vsub (footEnd relLen m hee (normalizeV (vsub toe hee))) hee
      = smul (m * (relLen : ℝ)) (normalizeV (vsub toe hee)) := by
    obtain ⟨hx, hy, hz⟩ := hee
    obtain ⟨ux, uy, uz⟩ := normalizeV (vsub toe ((hx, hy, hz) : Vec3R))
    simp only [footEnd, vadd, vsub, smul]
    ring_nf
  refine ⟨hu, hsub, ?_, lankV_perp _ _ hne, ?_, rfl⟩
  · rw [hsub, norm3_smul, hu, mul_one, abs_of_nonneg (mul_nonneg hm hrel)]
  · obtain ⟨hx, hy, hz⟩ := hee
    obtain ⟨ux, uy, uz⟩ := normalizeV (vsub toe ((hx, hy, hz) : Vec3R))
    simp only [heelEdge, vadd, vsub, smul]
    ring_nf

/-- Witness for the amended C7 at heel `(0,0,0)`, toe `(100,0,0)`, ankle
`(60,0,0)`, median heel-ankle distance 60, relative length 2, marker
diameter 14. -/
theorem foot_box_characterization_witness :
    norm3 (normalizeV (vsub ((100 : ℝ), 0, 0) ((0 : ℝ), 0, 0))) = 1 ∧
      vsub (footEnd 2 60 ((0 : ℝ), 0, 0)
          (normalizeV (vsub ((100 : ℝ), 0, 0) ((0 : ℝ), 0, 0)))) ((0 : ℝ), 0, 0)
        = smul (60 * ((2 : ℚ) : ℝ))
            (normalizeV (vsub ((100 : ℝ), 0, 0) ((0 : ℝ), 0, 0))) ∧
      norm3 (vsub (footEnd 2 60 ((0 : ℝ), 0, 0)
          (normalizeV (vsub ((100 : ℝ), 0, 0) ((0 : ℝ), 0, 0)))) ((0 : ℝ), 0, 0))
        = 60 * ((2 : ℚ) : ℝ) ∧
      dot3 (lankV (vsub ((60 : ℝ), 0, 0) ((0 : ℝ), 0, 0))
          (normalizeV (vsub ((100 : ℝ), 0, 0) ((0 : ℝ), 0, 0))))
        (vsub ((100 : ℝ), 0, 0) ((0 : ℝ), 0, 0)) = 0 ∧
      vsub (heelEdge 14 ((0 : ℝ), 0, 0)
          (normalizeV (vsub ((100 : ℝ), 0, 0) ((0 : ℝ), 0, 0)))) ((0 : ℝ), 0, 0)
        = smul (((14 : ℚ) : ℝ) / 2)
            (normalizeV (vsub ((100 : ℝ), 0, 0) ((0 : ℝ), 0, 0))) ∧
      footFrame 2 14 60 ((0 : ℝ), 0, 0) ((100 : ℝ), 0, 0) ((60 : ℝ), 0, 0)
        = (vmin (vmin (heelEdge 14 ((0 : ℝ), 0, 0)
              (normalizeV (vsub ((100 : ℝ), 0, 0) ((0 : ℝ), 0, 0))))
              (vadd (footEnd 2 60 ((0 : ℝ), 0, 0)
                  (normalizeV (vsub ((100 : ℝ), 0, 0) ((0 : ℝ), 0, 0))))
                (lankV (vsub ((60 : ℝ), 0, 0) ((0 : ℝ), 0, 0))
                  (normalizeV (vsub ((100 : ℝ), 0, 0) ((0 : ℝ), 0, 0))))))
            (vsub (footEnd 2 60 ((0 : ℝ), 0, 0)
                (normalizeV (vsub ((100 : ℝ), 0, 0) ((0 : ℝ), 0, 0))))
              (lankV (vsub ((60 : ℝ), 0, 0) ((0 : ℝ), 0, 0))
                (normalizeV (vsub ((100 : ℝ), 0, 0) ((0 : ℝ), 0, 0))))),
           vmax (vmax (heelEdge 14 ((0 : ℝ), 0, 0)
              (normalizeV (vsub ((100 : ℝ), 0, 0) ((0 : ℝ), 0, 0))))
              (vadd (footEnd 2 60 ((0 : ℝ), 0, 0)
                  (normalizeV (vsub ((100 : ℝ), 0, 0) ((0 : ℝ), 0, 0))))
                (lankV (vsub ((60 : ℝ), 0, 0) ((0 : ℝ), 0, 0))
                  (normalizeV (vsub ((100 : ℝ), 0, 0) ((0 : ℝ), 0, 0))))))
            (vsub (footEnd 2 60 ((0 : ℝ), 0, 0)
                (normalizeV (vsub ((100 : ℝ), 0, 0) ((0 : ℝ), 0, 0))))
              (lankV (vsub ((60 : ℝ), 0, 0) ((0 : ℝ), 0, 0))
                (normalizeV (vsub ((100 : ℝ), 0, 0) ((0 : ℝ), 0, 0)))))) :=
  foot_box_characterization 2 14 60 ((0 : ℝ), 0, 0) ((100 : ℝ), 0, 0)
    ((60 : ℝ), 0, 0) (by norm_num [vsub, Prod.ext_iff]) (by norm_num)
    (by norm_num)

/-- Configuration for the geometry trials: contact fraction 1/5, relative
foot length 2, marker diameter 14 mm, the usual foot marker names. -/
def cfgW : AutoprocCfg :=
  ⟨1/5, 0, 0, 2, 14, ["RHEE", "RTOE", "RANK"], ["LHEE", "LTOE", "LANK"]⟩

/-- One-frame marker data: the right foot lies along the x axis at y = 0,
the left foot at y = 1000 (far off the plate). -/
def mkrW : MkrData := fun name =>
  if name = "RHEE" then [(0, 0, 0)]
  else if name = "RTOE" then [(100, 0, 0)]
  else if name = "RANK" then [(60, 0, 0)]
  else if name = "LHEE" then [(0, 1000, 0)]
  else if name = "LTOE" then [(100, 1000, 0)]
  else if name = "LANK" then [(60, 1000, 0)]
  else []

/-- One-frame marker data with both feet over the plate: the right foot at
y = 0 and the left foot at y = 10. -/
def mkrBoth : MkrData := fun name =>
  if name = "RHEE" then [(0, 0, 0)]
  else if name = "RTOE" then [(100, 0, 0)]
  else if name = "RANK" then [(60, 0, 0)]
  else if name = "LHEE" then [(0, 10, 0)]
  else if name = "LTOE" then [(100, 10, 0)]
  else if name = "LANK" then [(60, 10, 0)]
  else []

/-- One frame of the estimated foot box for a foot lying along the x axis
at lateral position `y0`, with heel at x = 0, toe at x = 100 and the
ankle marker on the heel-toe line at x = 60: the box runs from the heel
edge x = 7 to the foot end x = 120. -/
theorem footFrame_eval (y0 : ℝ) :
    footFrame 2 14 60 ((0 : ℝ), y0, 0) ((100 : ℝ), y0, 0) ((60 : ℝ), y0, 0)
      = (((7 : ℝ), y0, 0), ((120 : ℝ), y0, 0)) := by
  have h100 : norm3 (((100 : ℝ), 0, 0)) = 100 :=
    norm3_eq _ _ (by norm_num) (by norm_num [dot3, -Prod.mk_zero_zero])
  have hu : normalizeV (((100 : ℝ), 0, 0)) = ((1 : ℝ), 0, 0) := by
    rw [normalizeV, h100]
    norm_num [-Prod.mk_zero_zero]
  simp only [footFrame, footEnd, lankV, heelEdge, vadd, vsub, smul, dot3,
    vmin, vmax]
  norm_num [hu, min_def, max_def, min_self, max_self, -Prod.mk_zero_zero]

/-- Shared evaluation of the per-side foot boxes on one-frame marker data
with the foot along the x axis at lateral position `y0`. -/
theorem footPoints_eval (mkr : MkrData) (side : Side) (y0 : ℚ)
    (hH : mkr (side.str ++ "HEE") = [(0, y0, 0)])
    (hT : mkr (side.str ++ "TOE") = [(100, y0, 0)])
    (hA : mkr (side.str ++ "ANK") = [(60, y0, 0)]) :
    footPoints cfgW mkr side
      = [(((7 : ℝ), (y0 : ℝ), 0), ((120 : ℝ), (y0 : ℝ), 0))] := by
  have h60 : norm3 (((60 : ℝ), 0, 0)) = 60 :=
    norm3_eq _ _ (by norm_num) (by norm_num [dot3, -Prod.mk_zero_zero])
  have hha : haLens [castVec (0, y0, 0)] [castVec (60, y0, 0)] = [(60 : ℝ)] := by
    have : vsub (castVec (60, y0, 0)) (castVec (0, y0, 0)) = ((60 : ℝ), 0, 0) := by
      norm_num [castVec, vsub, -Prod.mk_zero_zero]
    norm_num [haLens, List.zipWith, this, h60, -Prod.mk_zero_zero]
  have hcast0 : castVec (0, y0, 0) = ((0 : ℝ), (y0 : ℝ), 0) := by
    norm_num [castVec, -Prod.mk_zero_zero]
  have hcast100 : castVec (100, y0, 0) = ((100 : ℝ), (y0 : ℝ), 0) := by
    norm_num [castVec, -Prod.mk_zero_zero]
  have hcast60 : castVec (60, y0, 0) = ((60 : ℝ), (y0 : ℝ), 0) := by
    norm_num [castVec, -Prod.mk_zero_zero]
  rw [footPoints, hH, hT, hA]
  simp only [List.map_cons, List.map_nil]
  rw [hha, medianR_singleton]
  simp only [List.zipWith3, hcast0, hcast100, hcast60]
  rw [show cfgW.foot_relative_len = 2 from rfl,
    show cfgW.marker_diam = 14 from rfl, footFrame_eval (y0 : ℝ)]

/-- Right-foot boxes of the far-left-foot marker data. -/
theorem footPointsW_R : footPoints cfgW mkrW .R
    = [(((7 : ℝ), 0, 0), ((120 : ℝ), 0, 0))] := by
  have := footPoints_eval mkrW .R 0 rfl rfl rfl
  norm_num at this
  convert this using 2

/-- Left-foot boxes of the far-left-foot marker data. -/
theorem footPointsW_L : footPoints cfgW mkrW .L
    = [(((7 : ℝ), 1000, 0), ((120 : ℝ), 1000, 0))] := by
  have := footPoints_eval mkrW .L 1000 rfl rfl rfl
  norm_num at this
  convert this using 2

/-- Right-foot boxes of the both-feet marker data. -/
theorem footPointsB_R : footPoints cfgW mkrBoth .R
    = [(((7 : ℝ), 0, 0), ((120 : ℝ), 0, 0))] := by
  have := footPoints_eval mkrBoth .R 0 rfl rfl rfl
  norm_num at this
  convert this using 2

/-- Left-foot boxes of the both-feet marker data. -/
theorem footPointsB_L : footPoints cfgW mkrBoth .L
    = [(((7 : ℝ), 10, 0), ((120 : ℝ), 10, 0))] := by
  have := footPoints_eval mkrBoth .L 10 rfl rfl rfl
  norm_num at this
  convert this using 2

/-- C7 counterexample: at heel `(0,0,0)`, toe `(100,0,0)`, ankle
`(60,0,0)`, relative length 2 and marker diameter 14, the returned box is
`[7, 120]` along the walking axis: its forward extremity 120 is the
distance `2 × 60` from the HEEL, not beyond the toe marker by that amount
(which would give `100 + 2 × 60 = 220`), and its heel corner 7 is moved
toward the toe, not inflated outward to `0 - 14/2 = -7`. -/
theorem foot_footprint_counterexample :
    footPoints cfgW mkrW .R = [(((7 : ℝ), 0, 0), ((120 : ℝ), 0, 0))] ∧
      ((120 : ℝ) ≠ 100 + 2 * 60) ∧ ((7 : ℝ) ≠ 0 - 14 / 2) :=
  ⟨footPointsW_R, by norm_num, by norm_num⟩

/-- Force trace of the geometry trials: one frame of 8 analog samples, a
clean contact between samples 2 and 5. -/
def ftotW : List ℚ := [0, 0, 100, 100, 100, 100, 0, 0]

/-- Plate of the geometry trials: x from 0 to 200 mm, y from -50 to 50 mm,
constant center of pressure. -/
def plateW : FPData :=
  ⟨ftotW,
    [(0, 0, 0), (0, 0, 0), (0, 0, 0), (0, 0, 0), (0, 0, 0), (0, 0, 0),
      (0, 0, 0), (0, 0, 0)],
    (0, -50, 0), (200, 50, 0)⟩

/-- Metadata of the geometry trials: unknown body mass, 8 samples per
frame, frame rate 10 (settle time truncates to 0 frames), one frame. -/
def infoW : Metadata := ⟨none, 8, 10, 1⟩

/-- C1: in autodetection mode, when the plate reaches the per-plate
geometry check (crossings found, weight and center-of-pressure checks
passed) and the estimated footprints of both the right and the left foot
lie entirely within the plate bounds at the settled frame, the plate
evaluation raises the `GaitDataError` and the whole detector run aborts
with it, whatever plates follow and whatever was already recorded: no
side is picked and no events are recorded for the plate. -/
theorem both_feet_ambiguous (cfg : AutoprocCfg) (info : Metadata)
    (mkr : MkrData) (fwd : Fin 3) (fpi : Option (List (String × String)))
    (idx : ℕ) (fp : FPData) (f0 : ℚ) (ft : List ℚ) (fri ffa : ℕ) (r : ℚ)
    (rs : List ℚ)
    (hecl : eclMode fpi idx = .ok .auto)
    (hbase : baselineFtot fp = f0 :: ft)
    (hw : (thresholdAndReject cfg true info.bodymass (listMax f0 ft)).2 = false)
    (hrf : riseFallInds ((f0 :: ft).map
        (· - (thresholdAndReject cfg true info.bodymass (listMax f0 ft)).1))
      = some (fri, ffa))
    (hcop : copRoi fp.CoP fwd fri ffa = r :: rs)
    (hshift : ¬ (|listMax r rs - listMin r rs| > cfg.cop_shift_max))
    (hR : footOn fp.lowerbounds fp.upperbounds
        ((footPoints cfg mkr .R).getD
          ((nroundQ ((fri : ℚ) / (info.samplesperframe : ℚ))
            + (info.framerate / 20 : ℕ)).toNat) dfltBox))
    (hL : footOn fp.lowerbounds fp.upperbounds
        ((footPoints cfg mkr .L).getD
          ((nroundQ ((fri : ℚ) / (info.samplesperframe : ℚ))
            + (info.framerate / 20 : ℕ)).toNat) dfltBox)) :
    plateEval cfg info mkr fwd fpi idx fp = .error .ambiguousContact ∧
      ∀ (rest : List FPData) (acc : FPResults),
        detectGo cfg info mkr fwd fpi (fp :: rest) idx acc
          = .error .ambiguousContact := by
  have hav : autoValid cfg info mkr fwd fp fri ffa
      (nroundQ ((fri : ℚ) / (info.samplesperframe : ℚ)))
      = .error .ambiguousContact := by
    rw [autoValid, hcop]
    dsimp only
    rw [if_neg hshift]
    rw [if_pos hR, if_pos hL]
  have hpe : plateEval cfg info mkr fwd fpi idx fp
      = .error .ambiguousContact := by
    rw [plateEval, hecl]
    dsimp only
    rw [hbase]
    dsimp only [EclMode.isAuto]
    rw [hw]
    simp only [Bool.false_eq_true, if_false]
    rw [hrf]
    dsimp only
    rw [hav]
  refine ⟨hpe, ?_⟩
  intro rest acc
  rw [detectGo, hpe]

/-- Witness for C1: on the one-frame trial with both feet over the plate,
the detector aborts with the ambiguous-contact error. -/
theorem both_feet_ambiguous_witness :
    plateEval cfgW infoW mkrBoth 0 none 1 plateW = .error .ambiguousContact ∧
      detectGo cfgW infoW mkrBoth 0 none [plateW] 1 emptyResults
        = .error .ambiguousContact := by
  have hecl : eclMode none 1 = .ok .auto := rfl
  have hbase : baselineFtot plateW = [0, 0, 100, 100, 100, 100, 0, 0] := by
    norm_num [baselineFtot, plateW, ftotW, medfilt3, medfilt3Go, med3,
      baselineSub, listMin, min_def, max_def]
  have hw : (thresholdAndReject cfgW true infoW.bodymass
      (listMax 0 [0, 100, 100, 100, 100, 0, 0])).2 = false := rfl
  have hrf : riseFallInds (([0, 0, 100, 100, 100, 100, 0, 0] : List ℚ).map
      (· - (thresholdAndReject cfgW true infoW.bodymass
        (listMax 0 [0, 100, 100, 100, 100, 0, 0])).1)) = some (1, 5) := by
    norm_num [thresholdAndReject, listMax, cfgW, infoW, riseFallInds,
      risingZC, risingZCGo, fallingZC, fallingZCGo, min_def, max_def]
  have hcop : copRoi plateW.CoP 0 1 5 = 0 :: [0, 0, 0] := by
    norm_num [plateW, copRoi, coordQ]
  have hshift : ¬ (|listMax 0 [0, 0, 0] - listMin 0 [0, 0, 0]|
      > cfgW.cop_shift_max) := by
    norm_num [listMax, listMin, cfgW]
  have hidx : ((nroundQ (((1 : ℕ) : ℚ) / (infoW.samplesperframe : ℚ))
      + (infoW.framerate / 20 : ℕ)).toNat) = 0 := by
    norm_num [infoW, nroundQ]
  have hR : footOn plateW.lowerbounds plateW.upperbounds
      ((footPoints cfgW mkrBoth .R).getD
        ((nroundQ (((1 : ℕ) : ℚ) / (infoW.samplesperframe : ℚ))
          + (infoW.framerate / 20 : ℕ)).toNat) dfltBox) := by
    rw [hidx, footPointsB_R]
    norm_num [footOn, plateW]
  have hL : footOn plateW.lowerbounds plateW.upperbounds
      ((footPoints cfgW mkrBoth .L).getD
        ((nroundQ (((1 : ℕ) : ℚ) / (infoW.samplesperframe : ℚ))
          + (infoW.framerate / 20 : ℕ)).toNat) dfltBox) := by
    rw [hidx, footPointsB_L]
    norm_num [footOn, plateW]
  have h := both_feet_ambiguous cfgW infoW mkrBoth 0 none 1 plateW
    0 [0, 100, 100, 100, 100, 0, 0] 1 5 0 [0, 0, 0]
    hecl hbase hw hrf hcop hshift hR hL
  exact ⟨h.1, h.2 [] emptyResults⟩

/-- Plate evaluation of the geometry trial with the left foot far off the
plate: the right side passes the on-plate check, the strike frame is 0
and the toe-off frame 1. -/
theorem plateW_eval (idx : ℕ) :
    plateEval cfgW infoW mkrW 0 none idx plateW = .ok (some (.R, 0, 1)) := by
  have hbase : baselineFtot plateW = [0, 0, 100, 100, 100, 100, 0, 0] := by
    norm_num [baselineFtot, plateW, ftotW, medfilt3, medfilt3Go, med3,
      baselineSub, listMin, min_def, max_def]
  have hrf : riseFallInds (([0, 0, 100, 100, 100, 100, 0, 0] : List ℚ).map
      (· - (thresholdAndReject cfgW true infoW.bodymass
        (listMax 0 [0, 100, 100, 100, 100, 0, 0])).1)) = some (1, 5) := by
    norm_num [thresholdAndReject, listMax, cfgW, infoW, riseFallInds,
      risingZC, risingZCGo, fallingZC, fallingZCGo, min_def, max_def]
  have hcop : copRoi plateW.CoP 0 1 5 = 0 :: [0, 0, 0] := by
    norm_num [plateW, copRoi, coordQ]
  have hshift : ¬ (|listMax 0 [0, 0, 0] - listMin 0 [0, 0, 0]|
      > cfgW.cop_shift_max) := by
    norm_num [listMax, listMin, cfgW]
  have hidx : ((nroundQ (((1 : ℕ) : ℚ) / (infoW.samplesperframe : ℚ))
      + (infoW.framerate / 20 : ℕ)).toNat) = 0 := by
    norm_num [infoW, nroundQ]
  have hR : footOn plateW.lowerbounds plateW.upperbounds
      ((footPoints cfgW mkrW .R).getD
        ((nroundQ (((1 : ℕ) : ℚ) / (infoW.samplesperframe : ℚ))
          + (infoW.framerate / 20 : ℕ)).toNat) dfltBox) := by
    rw [hidx, footPointsW_R]
    norm_num [footOn, plateW]
  have hL : ¬ footOn plateW.lowerbounds plateW.upperbounds
      ((footPoints cfgW mkrW .L).getD
        ((nroundQ (((1 : ℕ) : ℚ) / (infoW.samplesperframe : ℚ))
          + (infoW.framerate / 20 : ℕ)).toNat) dfltBox) := by
    rw [hidx, footPointsW_L]
    norm_num [footOn, plateW]
  have hav : autoValid cfgW infoW mkrW 0 plateW 1 5
      (nroundQ (((1 : ℕ) : ℚ) / (infoW.samplesperframe : ℚ))) = .ok (some .R) := by
    rw [autoValid, hcop]
    dsimp only
    rw [if_neg hshift]
    rw [if_pos hR, if_neg hL]
  have hstrike : nroundQ (((1 : ℕ) : ℚ) / (infoW.samplesperframe : ℚ)) = 0 := by
    norm_num [infoW, nroundQ]
  have htoe : nroundQ (((5 : ℕ) : ℚ) / (infoW.samplesperframe : ℚ)) = 1 := by
    norm_num [infoW, nroundQ]
  rw [plateEval, show eclMode none idx = .ok .auto from rfl]
  dsimp only
  rw [hbase]
  dsimp only [EclMode.isAuto]
  rw [show (thresholdAndReject cfgW true infoW.bodymass
      (listMax 0 [0, 100, 100, 100, 100, 0, 0])).2 = false from rfl]
  simp only [Bool.false_eq_true, if_false]
  rw [hrf]
  dsimp only
  rw [hav, hstrike, htoe]

/-- C5 amended: when two consecutive plates are both accepted for the same
single side, the detector does not raise: it records one strike/toe-off
pair per plate for that side (two pairs in total). -/
theorem same_side_two_plates (cfg : AutoprocCfg) (info : Metadata)
    (mkr : MkrData) (fwd : Fin 3) (fpi : Option (List (String × String)))
    (idx : ℕ) (p₁ p₂ : FPData) (s : Side) (a b c d : ℤ) (acc : FPResults)
    (h₁ : plateEval cfg info mkr fwd fpi idx p₁ = .ok (some (s, a, b)))
    (h₂ : plateEval cfg info mkr fwd fpi (idx + 1) p₂ = .ok (some (s, c, d))) :
    detectGo cfg info mkr fwd fpi [p₁, p₂] idx acc
      = .ok (recordEvent (recordEvent acc s a b) s c d) := by
  rw [detectGo, h₁]
  dsimp only
  rw [detectGo, h₂]
  dsimp only
  rw [detectGo]

/-- C5 counterexample: two identical plates, both with a valid force
profile and the on-plate geometry passing for the right side only,
produce a normal result with two right-side strike/toe-off pairs; no
`AmbiguousContact` error is raised (the `valid` flag is reset for every
plate, so the error only concerns two sides on one plate). -/
theorem same_side_two_plates_counterexample :
    detect_forceplate_events cfgW infoW mkrW none [plateW, plateW]
      = .ok ⟨[0, 0], [1, 1], [], [], {Side.R}⟩ := by
  have hfwd : fwdDir cfgW mkrW = 0 := by
    norm_num [fwdDir, cfgW, mkrW, sumTrajs, vaddQ, varQ, argmax3, coordQ,
      List.zipWith]
  rw [detect_forceplate_events, hfwd, detectGo, plateW_eval 1]
  dsimp only
  rw [detectGo, plateW_eval 2]
  dsimp only
  rw [detectGo]
  rfl

/-- Witness for the amended C5: the two accepted same-side plates of the
counterexample trial yield exactly the two recorded pairs. -/
theorem same_side_two_plates_witness :
    detectGo cfgW infoW mkrW 0 none [plateW, plateW] 1 emptyResults
      = .ok (recordEvent (recordEvent emptyResults .R 0 1) .R 0 1) :=
  same_side_two_plates cfgW infoW mkrW 0 none 1 plateW plateW .R 0 1 0 1
    emptyResults (plateW_eval 1) (plateW_eval 2)

/-- Right toe trajectory of Scenario D: at the first right strike (frame
0) the toe is at the origin, at the second (frame 10) at `(0,1000,0)`. -/
def mdataRD : List Vec3Q :=
  [(0, 0, 0), (0, 0, 0), (0, 0, 0), (0, 0, 0), (0, 0, 0), (0, 0, 0),
    (0, 0, 0), (0, 0, 0), (0, 0, 0), (0, 0, 0), (0, 1000, 0)]

/-- Left toe trajectory of Scenario D: at the left strike (frame 5) the
toe is at `(50, 500, 0)`. -/
def mdataLD : List Vec3Q :=
  [(0, 0, 0), (0, 0, 0), (0, 0, 0), (0, 0, 0), (0, 0, 0), (50, 500, 0)]

/-- The step-width sample of Scenario D is 50 mm. -/
theorem swSampleD_eval : swSample (castVec (0, 0, 0)) (castVec (0, 1000, 0))
    (castVec (50, 500, 0)) = 50 := by
  have h1000 : norm3 (((0 : ℝ), 1000, 0)) = 1000 :=
    norm3_eq _ _ (by norm_num) (by norm_num [dot3, -Prod.mk_zero_zero])
  have h50 : norm3 (((-50 : ℝ), 0, 0)) = 50 :=
    norm3_eq _ _ (by norm_num) (by norm_num [dot3, -Prod.mk_zero_zero])
  simp only [swSample, castVec, vsub, smul, dot3, normalizeV]
  norm_num [h1000, h50, -Prod.mk_zero_zero]

/-- The strike loop of Scenario D for the right context yields exactly the
50 mm sample. -/
theorem swGoD_eval : swGo mdataRD mdataLD [5] 10 [0, 10] = [(50 : ℝ)] := by
  have hg0 : mdataRD.getD 0 (0, 0, 0) = (0, 0, 0) := by decide
  have hg10 : mdataRD.getD 10 (0, 0, 0) = (0, 1000, 0) := by decide
  have hg5 : mdataLD.getD 5 (0, 0, 0) = (50, 500, 0) := by decide
  have hfil : ((([5] : List ℕ).filter fun k => 0 < k).head?) = some 5 := by
    decide
  rw [swGo]
  rw [if_neg (by decide : ¬ (0 = 10))]
  rw [hfil]
  dsimp only
  rw [hg0, hg10, hg5, swSampleD_eval]
  rw [swGo, if_pos rfl]

/-- C9: a step-width sample is by definition the norm of the difference
between the projection of the contralateral toe offset onto the
normalized step line and the offset itself; this residual is
perpendicular to the step line; and on Scenario D (right strikes at toe
positions `(0,0,0)` and `(0,1000,0)` at frames 0 and 10, one left strike
at frame 5 with toe at `(50,500,0)`) the computed right step width list
is `[50]` and the left one is empty. -/
theorem step_width_residual :
    (∀ pt pn pnc : Vec3R, swSample pt pn pnc
        = norm3 (vsub (smul (dot3 (vsub pnc pt) (normalizeV (vsub pn pt)))
            (normalizeV (vsub pn pt))) (vsub pnc pt))) ∧
      (∀ pt pn pnc : Vec3R, vsub pn pt ≠ ((0 : ℝ), (0 : ℝ), (0 : ℝ)) →
        dot3 (vsub (smul (dot3 (vsub pnc pt) (normalizeV (vsub pn pt)))
            (normalizeV (vsub pn pt))) (vsub pnc pt)) (vsub pn pt) = 0) ∧
      step_width mdataLD mdataRD [5] [0, 10] = ([], [(50 : ℝ)]) := by
  refine ⟨fun pt pn pnc => rfl, ?_, ?_⟩
  · intro pt pn pnc hne
    have hp := lankV_perp (vsub pnc pt) (vsub pn pt) hne
    simp only [lankV, vsub, smul, dot3] at hp ⊢
    linarith
  · rw [step_width]
    rw [if_pos (by decide : ([5] : List ℕ).length < 2),
      if_neg (by decide : ¬ ([0, 10] : List ℕ).length < 2),
      show ([0, 10] : List ℕ).getLast? = some 10 from by decide]
    dsimp only
    rw [swGoD_eval]

/-- Witness for C9 at the Scenario D step: the residual of the left toe
offset with respect to the normalized right step line is perpendicular to
the step line. -/
theorem step_width_residual_witness :
    dot3
      (vsub
        (smul
          (dot3 (vsub (castVec (50, 500, 0)) (castVec (0, 0, 0)))
            (normalizeV (vsub (castVec (0, 1000, 0)) (castVec (0, 0, 0)))))
          (normalizeV (vsub (castVec (0, 1000, 0)) (castVec (0, 0, 0)))))
        (vsub (castVec (50, 500, 0)) (castVec (0, 0, 0))))
      (vsub (castVec (0, 1000, 0)) (castVec (0, 0, 0))) = 0 :=
  step_width_residual.2.1 (castVec (0, 0, 0)) (castVec (0, 1000, 0))
    (castVec (50, 500, 0))
    (by norm_num [castVec, vsub, Prod.ext_iff, -Prod.mk_zero_zero])

end Claims

end Gaitutils
